import Mathlib

/-!
# Verification of the Veritas documentation-analysis core

A shallow embedding, in Lean 4, of the extraction → matching → comparison →
scoring pipeline of the Veritas backend
(`backend/app/comparison/semantic_matcher.py`, `hybrid_engine.py`,
`scorer.py`, `engine.py`, `backend/app/parsers/parser_factory.py`,
`markdown_parser.py`), together with theorems settling the specification
claims about that pipeline.

Modelling conventions:
* Python floats are modelled as exact rationals (`ℚ`); `int(x)` is
  truncation toward zero (`pyInt`), `round(x)` is round-half-to-even
  (`pyRound`), matching CPython's semantics on exact values.
* Python strings are Lean `String`s; the string helpers (`pyLower`,
  `pyStrip`, `pySplitWs`, …) reproduce CPython behaviour on ASCII text
  (the repository's identifiers and headings are ASCII).
* Exceptions are modelled with `Except PyErr`; a function that cannot raise
  returns a plain value.  A remote call (the Gemini comparison engine) is a
  parameter `llm : FunctionSignature → FunctionSignature → Except PyErr
  ComparisonResult`, so theorems quantify over every possible remote
  behaviour, including failures.
* The `SemanticMatcher` is modelled in its no-embedding configuration (the
  `sentence_transformers` import failed or the model could not be loaded),
  which is the deterministic code path of `compute_similarity`.
-/

/- Batteries marks the `Rat` operations `@[irreducible]`; concrete
evaluations in this development go through `decide`, so they are made
semireducible for this file. -/
attribute [local semireducible] Rat.mul Rat.add Rat.sub Rat.inv Rat.ofScientific

namespace Veritas

/-! ## Python-style primitives -/

/-- Python `\s` / `str.strip()` whitespace on ASCII text. -/
def pyIsSpace (c : Char) : Bool :=
  c = ' ' ∨ c = '\t' ∨ c = '\n' ∨ c = '\r' ∨ c = '\x0b' ∨ c = '\x0c'

/-- Python `str.lower()` (ASCII). -/
def pyLower (s : String) : String := String.mk (s.data.map Char.toLower)

/-- Python `str.strip()` on a character list. -/
def pyStripList (l : List Char) : List Char :=
  ((l.dropWhile pyIsSpace).reverse.dropWhile pyIsSpace).reverse

/-- Python `str.strip()`. -/
def pyStrip (s : String) : String := String.mk (pyStripList s.data)

/-- Python `str.strip(chars)`: remove the given characters from both ends. -/
def pyStripChars (cs : List Char) (s : String) : String :=
  String.mk (((s.data.dropWhile (cs.contains ·)).reverse.dropWhile (cs.contains ·)).reverse)

/-- Python `str.rstrip(chars)`. -/
def pyRStripChars (cs : List Char) (s : String) : String :=
  String.mk ((s.data.reverse.dropWhile (cs.contains ·)).reverse)

/-- Worker for `pySplitWs`: accumulates the current word (reversed). -/
def pySplitWsAux : List Char → List Char → List (List Char)
  | [], acc => if acc.isEmpty then [] else [acc.reverse]
  | c :: rest, acc =>
    if pyIsSpace c then
      if acc.isEmpty then pySplitWsAux rest []
      else acc.reverse :: pySplitWsAux rest []
    else pySplitWsAux rest (c :: acc)

/-- Python `str.split()` with no argument: split on whitespace runs,
discarding empty pieces. -/
def pySplitWs (s : String) : List String :=
  (pySplitWsAux s.data []).map String.mk

/-- Splitting on a single separator character (kernel-reducible
replacement for `String.splitOn`): keeps empty pieces, like Python
`str.split(sep)`. -/
def pySplitOnCharAux (sep : Char) : List Char → List Char × List (List Char)
  | [] => ([], [])
  | c :: rest =>
    let r := pySplitOnCharAux sep rest
    if c = sep then ([], r.1 :: r.2) else (c :: r.1, r.2)

/-- Python `str.split(sep)` for a one-character separator. -/
def pySplitOnChar (sep : Char) (s : String) : List String :=
  let r := pySplitOnCharAux sep s.data
  (r.1 :: r.2).map String.mk

/-- Python `str.split('\n')`. -/
def pySplitNl (s : String) : List String := pySplitOnChar '\n' s

/-- `str.startswith` (list-based). -/
def pyStartsWith (s pre : String) : Bool := pre.data.isPrefixOf s.data

/-- `str.endswith` (list-based). -/
def pyEndsWith (s suf : String) : Bool := suf.data.isSuffixOf s.data

/-- Worker for `pyReplace`; the pattern is non-empty in every use here,
so each step shortens the input and `length + 1` units of fuel suffice. -/
def pyReplaceAux (pat repl : List Char) : ℕ → List Char → List Char
  | 0, l => l
  | _ + 1, [] => []
  | fuel + 1, c :: rest =>
    if pat.isPrefixOf (c :: rest) then
      repl ++ pyReplaceAux pat repl fuel ((c :: rest).drop pat.length)
    else c :: pyReplaceAux pat repl fuel rest

/-- Python `str.replace` (all non-overlapping occurrences, left to
right). -/
def pyReplace (s pat repl : String) : String :=
  String.mk (pyReplaceAux pat.data repl.data (s.data.length + 1) s.data)

/-- Python `str.find(c)` for a single character: index of the first
occurrence, `-1` if absent. -/
def pyFindChar (l : List Char) (c : Char) : Int :=
  match l.findIdx? (· = c) with
  | some i => (i : Int)
  | none => -1

/-- Python `str.rfind(c)` for a single character. -/
def pyRFindChar (l : List Char) (c : Char) : Int :=
  match l.reverse.findIdx? (· = c) with
  | some i => ((l.length - 1 - i : Nat) : Int)
  | none => -1

/-- Python slicing `s[a:b]` for non-negative bounds (as produced by
`find`/`rfind + 1` in the modelled code). -/
def pySlice (l : List Char) (a b : Int) : List Char :=
  (l.take b.toNat).drop a.toNat

/-- Substring test (`sub in s` in Python). -/
def pyContainsSub (s sub : List Char) : Bool :=
  (List.range (s.length + 1)).any (fun i => sub.isPrefixOf (s.drop i))

/-- Python truthiness of an optional string: `None` and `""` are falsy. -/
def pyTruthyOpt : Option String → Bool
  | none => false
  | some s => ¬ s.isEmpty

/-- Python `int(x)` on an exact rational: truncation toward zero. -/
def pyInt (q : ℚ) : ℤ := q.num.tdiv (q.den : ℤ)

/-- Floor of a rational, computed directly (`q.num // q.den`). -/
def ratFloor (q : ℚ) : ℤ := q.num.fdiv (q.den : ℤ)

/-- Python `round(x)` (round half to even) on an exact rational. -/
def pyRound (q : ℚ) : ℤ :=
  let n := ratFloor q
  let r := q - (n : ℚ)
  if r < 1/2 then n
  else if 1/2 < r then n + 1
  else if n % 2 = 0 then n else n + 1

/-- Python `round(x, 1)` on an exact rational. -/
def pyRound1 (q : ℚ) : ℚ := (pyRound (10 * q) : ℚ) / 10

/-- The Python exceptions appearing in the modelled code. -/
inductive PyErr where
  /-- `requests.exceptions.HTTPError` (and its rate-limit rewrapping). -/
  | httpError (msg : String)
  /-- `RuntimeError` (e.g. missing `GEMINI_API_KEY`). -/
  | runtimeError (msg : String)
  /-- `AttributeError` (attribute access on an object lacking it). -/
  | attrError
  /-- `TypeError`. -/
  | typeError
  /-- `ValueError` (e.g. `int()` of a non-numeric string). -/
  | valueError
  /-- `IndexError` (e.g. `clean_text[0]` on an empty string). -/
  | indexError
  /-- Model boundary: a service reply stored a non-string JSON value in a
  string-typed `Issue` field.  CPython would store the raw object; the
  typed model stops here instead.  No theorem depends on this case. -/
  | nonStringField
deriving DecidableEq, Repr

/-! ## Data model (`app/models/function_signature.py`, `engine.py`) -/

/-- `Parameter` (`app/models/function_signature.py`). -/
structure Parameter where
  name : String
  type : Option String := none
  default : Option String := none
deriving DecidableEq, Repr

/-- `FunctionSignature` (`app/models/function_signature.py`). -/
structure FunctionSignature where
  name : String
  parameters : List Parameter
  return_type : Option String := none
  docstring : Option String := none
  line_number : ℕ
  file_path : String
deriving DecidableEq, Repr

/-- `Issue` (`app/comparison/engine.py`). -/
structure Issue where
  severity : String
  function : String
  issue : String
  code_has : String
  docs_say : String
  suggested_fix : Option String := none
deriving DecidableEq, Repr

/-- `ComparisonResult` (`app/comparison/engine.py`).  The source field
`matches` is spelled `matches_` because `matches` is a Lean keyword. -/
structure ComparisonResult where
  matches_ : Bool
  confidence : ℤ
  issues : List Issue
deriving DecidableEq, Repr

/-- `SimilarityScore` (`app/comparison/semantic_matcher.py`). -/
structure SimilarityScore where
  score : ℚ
  method : String
  confidence : ℚ
deriving DecidableEq, Repr

/-- `HybridComparisonResult` (`app/comparison/hybrid_engine.py`). -/
structure HybridComparisonResult where
  matches_ : Bool
  confidence : ℤ
  issues : List Issue
  embedding_score : ℚ
  llm_confidence : ℤ
  method : String
deriving DecidableEq, Repr

/-! ## Levenshtein distance (`SemanticMatcher._levenshtein_similarity`)

The source computes the distance with a rolling one-dimensional dynamic
programming loop.  `rowStep`/`dpLoop`/`dpDistance` translate that loop;
`levRec` is the textbook recursive edit distance used to prove that the
loop is symmetric. -/

/-- Textbook Levenshtein distance (unit costs), by recursion on the fronts. -/
def levRec : List Char → List Char → ℕ
  | [], ys => ys.length
  | x :: xs, [] => (x :: xs).length
  | x :: xs, y :: ys =>
    if x = y then levRec xs ys
    else 1 + min (levRec xs (y :: ys)) (min (levRec (x :: xs) ys) (levRec xs ys))
  termination_by a b => a.length + b.length

/-- The inner `for i1, c1 in enumerate(s1)` loop of
`_levenshtein_similarity`: builds the tail of `new_distances`, where
`last` is the previously appended entry (`new_distances[-1]`). -/
def rowStep (c2 : Char) : List Char → List ℕ → ℕ → List ℕ
  | c1 :: rest, d0 :: d1 :: ds, last =>
    let v := if c1 = c2 then d0 else 1 + min d0 (min d1 last)
    v :: rowStep c2 rest (d1 :: ds) v
  | _, _, _ => []

/-- The outer `for i2, c2 in enumerate(s2)` loop: `i2` is the index of the
current character of `s2`. -/
def dpLoop (s1 : List Char) : List Char → List ℕ → ℕ → List ℕ
  | [], dist, _ => dist
  | c2 :: rest2, dist, i2 =>
    dpLoop s1 rest2 ((i2 + 1) :: rowStep c2 s1 dist (i2 + 1)) (i2 + 1)

/-- The full dynamic program of `_levenshtein_similarity`:
`distances = list(range(len(s1) + 1))`, then the nested loops, then
`distances[-1]`. -/
def dpDistance (s1 s2 : List Char) : ℕ :=
  (dpLoop s1 s2 (List.range (s1.length + 1)) 0).getLastD 0

/-- `SemanticMatcher._levenshtein_similarity`: swap so the first string is
the shorter, run the dynamic program, normalise by the longer length. -/
def levenshteinSimilarity (s1 s2 : String) : ℚ :=
  if s1.isEmpty ∨ s2.isEmpty then 0
  else
    let p := if s1.length > s2.length then (s2, s1) else (s1, s2)
    let maxLen := max p.1.length p.2.length
    if maxLen = 0 then 1
    else
      let distance := dpDistance p.1.data p.2.data
      max 0 (1 - (distance : ℚ) / (maxLen : ℚ))

theorem levRec_nil_right : ∀ xs : List Char, levRec xs [] = xs.length := by
  intro xs; cases xs <;> simp [levRec]

/-- The recursive edit distance is symmetric. -/
theorem levRec_symm (a b : List Char) : levRec a b = levRec b a := by
  have H : ∀ (n : ℕ) (a b : List Char),
      a.length + b.length ≤ n → levRec a b = levRec b a := by
    intro n
    induction n with
    | zero =>
      intro a b h
      match a, b with
      | [], [] => rfl
      | [], _ :: _ => simp at h
      | _ :: _, _ => simp at h
    | succ n ih =>
      intro a b h
      match a, b with
      | [], [] => rfl
      | [], y :: ys => simp [levRec]
      | x :: xs, [] => simp [levRec]
      | x :: xs, y :: ys =>
        simp only [levRec]
        have hlen : (x :: xs).length + (y :: ys).length ≤ n + 1 := h
        simp only [List.length_cons] at hlen
        by_cases hxy : x = y
        · subst hxy
          simp only [if_pos rfl]
          exact ih xs ys (by omega)
        · have hyx : ¬ y = x := fun hh => hxy hh.symm
          rw [if_neg hxy, if_neg hyx]
          have h1 : levRec xs (y :: ys) = levRec (y :: ys) xs :=
            ih xs (y :: ys) (by simp; omega)
          have h2 : levRec (x :: xs) ys = levRec ys (x :: xs) :=
            ih (x :: xs) ys (by simp; omega)
          have h3 : levRec xs ys = levRec ys xs := ih xs ys (by omega)
          rw [h1, h2, h3]
          omega
  exact H (a.length + b.length) a b le_rfl

/-- Edit distance between reversed lists: the quantity tracked by the
dynamic programming rows (`distances[j]` is `dRev (s1.take j) q` for the
processed part `q` of `s2`). -/
def dRev (u v : List Char) : ℕ := levRec u.reverse v.reverse

theorem dRev_nil_left (v : List Char) : dRev [] v = v.length := by
  simp [dRev, levRec]

theorem dRev_snoc_snoc (u v : List Char) (x y : Char) :
    dRev (u ++ [x]) (v ++ [y]) =
      if x = y then dRev u v
      else 1 + min (dRev u (v ++ [y])) (min (dRev (u ++ [x]) v) (dRev u v)) := by
  simp only [dRev, List.reverse_append, List.reverse_cons, List.reverse_nil,
    List.nil_append, List.singleton_append]
  rw [levRec]

/-- The ideal contents of the `distances` list when the entries for the
fronts shorter than `p` have already been dropped: `rowOf q p u` lists
`dRev (p ++ u.take j) q` for `j = 0, …, u.length`. -/
def rowOf (q : List Char) : List Char → List Char → List ℕ
  | p, [] => [dRev p q]
  | p, c :: rest => dRev p q :: rowOf q (p ++ [c]) rest

theorem rowOf_ne_nil (q p : List Char) (u : List Char) : rowOf q p u ≠ [] := by
  cases u <;> simp [rowOf]

/-- Correctness of the inner loop: fed the previous row, it produces the
tail of the next row (the head `dRev p (q ++ [c2])` was seeded by the
outer loop as `new_distances = [i2 + 1]`). -/
theorem rowStep_spec (c2 : Char) (q : List Char) :
    ∀ (u p : List Char),
      dRev p (q ++ [c2]) ::
          rowStep c2 u (rowOf q p u) (dRev p (q ++ [c2]))
        = rowOf (q ++ [c2]) p u := by
  intro u
  induction u with
  | nil => intro p; simp [rowOf, rowStep]
  | cons c1 rest ih =>
    intro p
    have hv :
        (if c1 = c2 then dRev p q
          else 1 + min (dRev p q) (min (dRev (p ++ [c1]) q) (dRev p (q ++ [c2]))))
          = dRev (p ++ [c1]) (q ++ [c2]) := by
      rw [dRev_snoc_snoc]
      by_cases h : c1 = c2
      · simp [h]
      · rw [if_neg h, if_neg h]
        omega
    match hrest : rest with
    | [] =>
      simp only [rowOf, rowStep, hv]
    | c2' :: rest' =>
      simp only [rowOf]
      rw [rowStep]
      rw [hv]
      have := ih (p ++ [c1])
      simp only [rowOf] at this
      rw [this]

/-- Correctness of the outer loop. -/
theorem dpLoop_spec (s1 : List Char) :
    ∀ (r q : List Char),
      dpLoop s1 r (rowOf q [] s1) q.length = rowOf (q ++ r) [] s1 := by
  intro r
  induction r with
  | nil => intro q; simp [dpLoop]
  | cons c2 rest2 ih =>
    intro q
    rw [dpLoop]
    have hseed : q.length + 1 = dRev [] (q ++ [c2]) := by
      rw [dRev_nil_left]; simp
    rw [hseed, rowStep_spec c2 q s1 []]
    have hlen : (q ++ [c2]).length = q.length + 1 := by simp
    calc dpLoop s1 rest2 (rowOf (q ++ [c2]) [] s1) (dRev [] (q ++ [c2]))
        = dpLoop s1 rest2 (rowOf (q ++ [c2]) [] s1) (q ++ [c2]).length := by
          rw [dRev_nil_left, hlen]
      _ = rowOf ((q ++ [c2]) ++ rest2) [] s1 := ih (q ++ [c2])
      _ = rowOf (q ++ (c2 :: rest2)) [] s1 := by rw [List.append_assoc]; rfl

theorem rowOf_nil_q : ∀ (u p : List Char),
    rowOf [] p u = (List.range (u.length + 1)).map (fun j => p.length + j) := by
  intro u
  induction u with
  | nil =>
    intro p
    simp [rowOf, dRev, levRec_nil_right, List.range_succ]
  | cons c rest ih =>
    intro p
    rw [rowOf, ih (p ++ [c])]
    have hd : dRev p [] = p.length := by
      simp [dRev, levRec_nil_right]
    rw [hd]
    conv_rhs => rw [List.length_cons, List.range_succ_eq_map, List.map_cons, List.map_map]
    congr 1
    apply List.map_congr_left
    intro j hj
    simp only [Function.comp_apply, List.length_append, List.length_cons,
      List.length_nil]
    omega

theorem getLastD_of_ne_nil {l : List ℕ} (h : l ≠ []) (a b : ℕ) :
    l.getLastD a = l.getLastD b := by
  rw [List.getLastD_eq_getLast?, List.getLastD_eq_getLast?]
  obtain ⟨y, hy⟩ := Option.isSome_iff_exists.mp (List.getLast?_isSome.mpr h)
  rw [hy]
  rfl

theorem rowOf_getLastD : ∀ (u p q : List Char),
    (rowOf q p u).getLastD 0 = dRev (p ++ u) q := by
  intro u
  induction u with
  | nil => intro p q; simp [rowOf]
  | cons c rest ih =>
    intro p q
    simp only [rowOf, List.getLastD_cons]
    rw [getLastD_of_ne_nil (rowOf_ne_nil q (p ++ [c]) rest) _ 0]
    rw [ih (p ++ [c]) q]
    simp

/-- The dynamic program computes the edit distance of the reversed inputs
(hence, up to reversal, the Levenshtein distance). -/
theorem dpDistance_eq (s1 s2 : List Char) :
    dpDistance s1 s2 = levRec s1.reverse s2.reverse := by
  have hinit : List.range (s1.length + 1) = rowOf [] [] s1 := by
    rw [rowOf_nil_q s1 []]
    simp
  have h := dpLoop_spec s1 s2 []
  simp only [List.length_nil, List.nil_append] at h
  simp only [dpDistance, hinit, h]
  rw [rowOf_getLastD s1 [] s2, List.nil_append]
  rfl

/-- The dynamic program is symmetric. -/
theorem dpDistance_symm (a b : List Char) : dpDistance a b = dpDistance b a := by
  rw [dpDistance_eq, dpDistance_eq, levRec_symm]

/-! ## `SemanticMatcher` (`app/comparison/semantic_matcher.py`),
no-embedding configuration -/

/-- The regex class `[A-Z]`. -/
def pyUpperAZ (c : Char) : Bool := 'A' ≤ c ∧ c ≤ 'Z'

/-- The regex class `[a-z]`. -/
def pyLowerAZ (c : Char) : Bool := 'a' ≤ c ∧ c ≤ 'z'

/-- The regex class `[0-9]`. -/
def pyDigit (c : Char) : Bool := '0' ≤ c ∧ c ≤ '9'

/-- `re.sub('(.)([A-Z][a-z]+)', r'\1_\2', s)`: left-to-right,
non-overlapping; a match consumes one character, an upper-case letter and
the maximal following lower-case run, and inserts `_` after the first
character. -/
def camelSub1Aux : ℕ → List Char → List Char
  | 0, l => l
  | _ + 1, [] => []
  | _ + 1, [c] => [c]
  | fuel + 1, c :: u :: rest2 =>
    if pyUpperAZ u && (match rest2 with | v :: _ => pyLowerAZ v | [] => false) then
      let run := rest2.takeWhile pyLowerAZ
      let rem := rest2.dropWhile pyLowerAZ
      c :: '_' :: u :: (run ++ camelSub1Aux fuel rem)
    else c :: camelSub1Aux fuel (u :: rest2)

/-- Entry point of the first substitution; every step of `camelSub1Aux`
shortens the input, so `length + 1` units of fuel are never exhausted. -/
def camelSub1 (l : List Char) : List Char := camelSub1Aux (l.length + 1) l

/-- `re.sub('([a-z0-9])([A-Z])', r'\1_\2', s)`: matches consume two
characters and scanning resumes after the upper-case letter. -/
def camelSub2 : List Char → List Char
  | [] => []
  | [c] => [c]
  | c :: u :: rest2 =>
    if (pyLowerAZ c || pyDigit c) && pyUpperAZ u then c :: '_' :: u :: camelSub2 rest2
    else c :: camelSub2 (u :: rest2)

/-- `SemanticMatcher._normalize_name`. -/
def normalizeName (name : String) : String :=
  let s1 := camelSub1 name.data
  let s2 := camelSub2 s1
  String.mk ((s2.map Char.toLower).map (fun c => if c = '_' then ' ' else c))

/-- `SemanticMatcher._levenshtein_similarity` is symmetric (the claim's
interesting case is equal lengths, where no swap happens and symmetry of
the dynamic program itself is needed). -/
theorem levenshteinSimilarity_symm (s1 s2 : String) :
    levenshteinSimilarity s1 s2 = levenshteinSimilarity s2 s1 := by
  unfold levenshteinSimilarity
  by_cases h1 : s1.isEmpty
  · simp [h1]
  · by_cases h2 : s2.isEmpty
    · simp [h1, h2]
    · rcases lt_trichotomy s1.length s2.length with hlt | heq | hgt
      · have hc1 : ¬ s1.length > s2.length := by omega
        simp [h1, h2, hc1, hlt]
      · have hc1 : ¬ s1.length > s2.length := by omega
        have hc2 : ¬ s2.length > s1.length := by omega
        simp only [h1, h2, Bool.false_eq_true, or_self, if_false, hc1, hc2]
        rw [dpDistance_symm s1.data s2.data, max_comm s1.length s2.length]
      · have hc2 : ¬ s2.length > s1.length := by omega
        simp [h1, h2, hgt, hc2]

/-- `SemanticMatcher._name_similarity`. -/
def nameSimilarity (name1 name2 : String) : ℚ :=
  let n1 := pyLower name1
  let n2 := pyLower name2
  if n1 = n2 then 1.0
  else
    let norm1 := normalizeName name1
    let norm2 := normalizeName name2
    if norm1 = norm2 then 0.95
    else
      let words1 := pySplitWs norm1
      let words2 := pySplitWs norm2
      if words1 ≠ [] ∧ words2 ≠ [] then
        let common := (words1.toFinset ∩ words2.toFinset).card
        let total := (words1.toFinset ∪ words2.toFinset).card
        if total > 0 then
          let jaccard : ℚ := (common : ℚ) / (total : ℚ)
          if jaccard ≥ 0.7 then 0.85
          else if jaccard ≥ 0.5 then 0.70
          else if jaccard > 0.3 then 0.50
          else levenshteinSimilarity n1 n2
        else levenshteinSimilarity n1 n2
      else levenshteinSimilarity n1 n2

/-- `SemanticMatcher._feature_similarity`.  The Python version pushes the
weighted terms onto a list and sums it; the four terms are named here.
When both parameter lists are empty the parameter-count term is *not*
appended (contributing `0`), mirroring `if params1 > 0 or params2 > 0`. -/
def featureSimilarity (func1 func2 : FunctionSignature) : ℚ :=
  let params1 := func1.parameters.length
  let params2 := func2.parameters.length
  let paramCountTerm : ℚ :=
    if params1 > 0 ∨ params2 > 0 then
      (1 - |(params1 : ℚ) - (params2 : ℚ)| / max (params1 : ℚ) (max (params2 : ℚ) 1)) * 0.3
    else 0
  let retTerm : ℚ :=
    if pyTruthyOpt func1.return_type ∧ pyTruthyOpt func2.return_type then
      (if func1.return_type = func2.return_type then 1 else 0.5) * 0.2
    else if ¬ pyTruthyOpt func1.return_type ∧ ¬ pyTruthyOpt func2.return_type then
      1 * 0.2
    else 0.5 * 0.2
  let typeTerm : ℚ :=
    if func1.parameters ≠ [] ∧ func2.parameters ≠ [] then
      let totalParams := max params1 params2
      let typeMatches := (func1.parameters.zip func2.parameters).countP
        (fun pq => pyTruthyOpt pq.1.type ∧ pyTruthyOpt pq.2.type ∧ pq.1.type = pq.2.type)
      (if totalParams > 0 then (typeMatches : ℚ) / (totalParams : ℚ) else 0.5) * 0.3
    else 0.5 * 0.3
  let docTerm : ℚ :=
    if pyTruthyOpt func1.docstring ∧ pyTruthyOpt func2.docstring then
      let words1 := pySplitWs (pyLower (func1.docstring.getD ""))
      let words2 := pySplitWs (pyLower (func2.docstring.getD ""))
      if words1 ≠ [] ∧ words2 ≠ [] then
        let common := (words1.toFinset ∩ words2.toFinset).card
        let total := (words1.toFinset ∪ words2.toFinset).card
        (if total > 0 then (common : ℚ) / (total : ℚ) else 0.5) * 0.2
      else 0.5 * 0.2
    else 0.5 * 0.2
  paramCountTerm + retTerm + typeTerm + docTerm

/-- `SemanticMatcher.compute_similarity` with `self.encoder is None` (the
deterministic fallback: name 50% + features 50%, confidence 0.7). -/
def computeSimilarity (func1 func2 : FunctionSignature) : SimilarityScore :=
  { score := 0.5 * nameSimilarity func1.name func2.name
      + 0.5 * featureSimilarity func1 func2
    method := "hybrid_fallback"
    confidence := 0.7 }

/-- One emitted element of `find_best_matches`. -/
abbrev MatchTriple :=
  Option FunctionSignature × Option FunctionSignature × SimilarityScore

/-- `doc_map = {d.name.lower(): (i, d) for i, d in enumerate(doc_functions)}`
followed by `doc_map.get(key)`: the *last* binding of a key wins. -/
def docMapLookup (docs : List FunctionSignature) (key : String) :
    Option (ℕ × FunctionSignature) :=
  (docs.enum.reverse).find? (fun p => pyLower p.2.name = key)

/-- The inner `for i, doc_func in enumerate(doc_functions)` search of
`find_best_matches`: best unconsumed semantic match, strictly improving a
starting score of `0.0`. -/
def bestSemanticMatch (codeF : FunctionSignature)
    (docs : List FunctionSignature) (used : List ℕ) :
    Option FunctionSignature × SimilarityScore × Option ℕ :=
  docs.enum.foldl
    (fun acc p =>
      if used.contains p.1 then acc
      else
        let sim := computeSimilarity codeF p.2
        if sim.score > acc.2.1.score then (some p.2, sim, some p.1) else acc)
    (none, { score := 0.0, method := "none", confidence := 0.0 }, none)

/-- The main `for code_func in code_functions` loop of
`find_best_matches`, threading `used_doc_indices`. -/
def fbmLoop (docs : List FunctionSignature) (threshold : ℚ) :
    List FunctionSignature → List ℕ → List MatchTriple × List ℕ
  | [], used => ([], used)
  | codeF :: rest, used =>
    match docMapLookup docs (pyLower codeF.name) with
    | some (docIdx, docF) =>
      let (tl, used') := fbmLoop docs threshold rest (docIdx :: used)
      ((some codeF, some docF,
          { score := 1.0, method := "exact_name", confidence := 1.0 }) :: tl, used')
    | none =>
      let best := bestSemanticMatch codeF docs used
      match best.1 with
      | some docF =>
        if best.2.1.score ≥ threshold then
          let used2 := match best.2.2 with | some i => i :: used | none => used
          let (tl, used') := fbmLoop docs threshold rest used2
          ((some codeF, some docF, best.2.1) :: tl, used')
        else
          let (tl, used') := fbmLoop docs threshold rest used
          ((some codeF, none,
              { score := 0.0, method := "none", confidence := 0.0 }) :: tl, used')
      | none =>
        let (tl, used') := fbmLoop docs threshold rest used
        ((some codeF, none,
            { score := 0.0, method := "none", confidence := 0.0 }) :: tl, used')

/-- `SemanticMatcher.find_best_matches`. -/
def findBestMatches (codeFunctions docFunctions : List FunctionSignature)
    (threshold : ℚ) : List MatchTriple :=
  let r := fbmLoop docFunctions threshold codeFunctions []
  r.1 ++ (docFunctions.enum.filter (fun p => ¬ r.2.contains p.1)).map
    (fun p => (none, some p.2,
      { score := 0.0, method := "unmatched", confidence := 0.0 }))

/-! ## `HybridComparator` (`app/comparison/hybrid_engine.py`) -/

/-- `self.embedding_threshold_high`. -/
def embeddingThresholdHigh : ℚ := 0.85

/-- `self.embedding_threshold_medium`. -/
def embeddingThresholdMedium : ℚ := 0.60

/-- `self.embedding_threshold_very_low`. -/
def embeddingThresholdVeryLow : ℚ := 0.2

/-- The local `name_threshold` of `HybridComparator.compare`. -/
def nameThreshold : ℚ := 0.3

/-- `', '.join(p.name for p in f.parameters)`. -/
def paramNamesJoined (f : FunctionSignature) : String :=
  String.intercalate ", " (f.parameters.map (·.name))

/-- `HybridComparator._compute_name_similarity`.  The `return jaccard`
buried in the nested `if`s is modelled with an intermediate `Option`. -/
def hybridNameSimilarity (name1 name2 : String) : ℚ :=
  let n1 := pyLower name1
  let n2 := pyLower name2
  if n1 = n2 then 1.0
  else
    let words1 := pySplitWs (String.mk (n1.data.map (fun c => if c = '_' then ' ' else c)))
    let words2 := pySplitWs (String.mk (n2.data.map (fun c => if c = '_' then ' ' else c)))
    let jaccardHit : Option ℚ :=
      if words1 ≠ [] ∧ words2 ≠ [] then
        let common := (words1.toFinset ∩ words2.toFinset).card
        let total := (words1.toFinset ∪ words2.toFinset).card
        if total > 0 then
          let jaccard : ℚ := (common : ℚ) / (total : ℚ)
          if jaccard > 0.3 then some jaccard else none
        else none
      else none
    match jaccardHit with
    | some j => j
    | none =>
      if n1.length = 0 ∨ n2.length = 0 then 0
      else
        let chars1 := n1.data.toFinset
        let chars2 := n2.data.toFinset
        let commonChars := (chars1 ∩ chars2).card
        let totalChars := (chars1 ∪ chars2).card
        if totalChars = 0 then 0
        else (commonChars : ℚ) / (totalChars : ℚ)

/-- `HybridComparator._has_parameter_mismatch`. -/
def hasParameterMismatch (codeF docF : FunctionSignature) : Bool :=
  let codeParams := (codeF.parameters.map (fun p => pyLower p.name)).toFinset
  let docParams := (docF.parameters.map (fun p => pyLower p.name)).toFinset
  if codeParams ≠ docParams then true
  else if codeF.parameters.length ≠ docF.parameters.length then true
  else false

/-- A Python `dict` built by `{key(x): x for x in xs}`: keys keep
first-occurrence order, the last value for a key wins. -/
def pyParamDict (ps : List Parameter) : List (String × Parameter) :=
  ps.foldl
    (fun acc p =>
      let key := pyLower p.name
      if acc.any (·.1 = key) then
        acc.map (fun kv => if kv.1 = key then (key, p) else kv)
      else acc ++ [(key, p)])
    []

/-- `HybridComparator._quick_issue_check`. -/
def quickIssueCheck (codeF docF : FunctionSignature) : List Issue :=
  let codeParams := pyParamDict codeF.parameters
  let docParams := pyParamDict docF.parameters
  let missingFromDocs := codeParams.filterMap (fun kv =>
    if docParams.any (·.1 = kv.1) then none
    else
      let p := kv.2
      let severity := if ¬ pyTruthyOpt p.default then "high" else "medium"
      let paramDesc0 :=
        p.name ++ ": " ++ (if pyTruthyOpt p.type then p.type.getD "" else "Any")
      let paramDesc :=
        if pyTruthyOpt p.default then paramDesc0 ++ " = " ++ p.default.getD ""
        else paramDesc0
      some { severity := severity
             function := codeF.name
             issue := (if ¬ pyTruthyOpt p.default then "Required" else "Optional")
               ++ " parameter '" ++ p.name ++ "' is missing from documentation"
             code_has := paramDesc
             docs_say := "Not documented"
             suggested_fix := some ("Add '" ++ p.name ++ "' parameter to documentation") })
  let extraInDocs := docParams.filterMap (fun kv =>
    if codeParams.any (·.1 = kv.1) then none
    else
      let p := kv.2
      let paramDesc :=
        if pyTruthyOpt p.type then p.name ++ " (" ++ p.type.getD "" ++ ")" else p.name
      some { severity := "high"
             function := codeF.name
             issue := "Parameter '" ++ p.name ++ "' is documented but does not exist in code"
             code_has := "Parameter does not exist"
             docs_say := paramDesc
             suggested_fix := some ("Remove '" ++ p.name
               ++ "' from documentation or check if parameter was renamed") })
  missingFromDocs ++ extraInDocs

/-- `HybridComparator._embedding_only_very_low`: complete mismatch,
`matches` hard-coded to `False`. -/
def embeddingOnlyVeryLow (codeF docF : FunctionSignature)
    (similarity : SimilarityScore) : HybridComparisonResult :=
  let confidence := pyInt (similarity.score * 100)
  { matches_ := false
    confidence := confidence
    issues := [{ severity := "high"
                 function := codeF.name
                 issue := "Functions are completely different (embedding similarity "
                   ++ toString confidence ++ "%). Code function '" ++ codeF.name
                   ++ "' does not match documented function '" ++ docF.name ++ "'."
                 code_has := codeF.name ++ "(" ++ paramNamesJoined codeF ++ ")"
                 docs_say := docF.name ++ "(" ++ paramNamesJoined docF ++ ")"
                 suggested_fix := some ("Check if functions were renamed, or if "
                   ++ "documentation refers to different code. Consider updating "
                   ++ "documentation to match actual code.") }]
    embedding_score := similarity.score
    llm_confidence := 0
    method := "embedding_only_very_low" }

/-- `HybridComparator._embedding_only_result`. -/
def embeddingOnlyResult (codeF docF : FunctionSignature)
    (similarity : SimilarityScore) : HybridComparisonResult :=
  let confidence := pyInt (similarity.score * 100)
  { matches_ := confidence ≥ 80
    confidence := confidence
    issues := quickIssueCheck codeF docF
    embedding_score := similarity.score
    llm_confidence := confidence
    method := "embedding_only" }

/-- `HybridComparator._hybrid_comparison` (no `try`: an engine failure
propagates). -/
def hybridLLMComparison
    (llm : FunctionSignature → FunctionSignature → Except PyErr ComparisonResult)
    (codeF docF : FunctionSignature) (similarity : SimilarityScore) :
    Except PyErr HybridComparisonResult := do
  let llmResult ← llm codeF docF
  let embeddingConfidence := pyInt (similarity.score * 100)
  let llmConfidence := llmResult.confidence
  let combined := pyInt (0.4 * (embeddingConfidence : ℚ) + 0.6 * (llmConfidence : ℚ))
  .ok { matches_ := combined ≥ 80
        confidence := combined
        issues := llmResult.issues
        embedding_score := similarity.score
        llm_confidence := llmConfidence
        method := "hybrid" }

/-- `HybridComparator._llm_focused_comparison` (no `try`: an engine
failure propagates). -/
def llmFocusedComparison
    (llm : FunctionSignature → FunctionSignature → Except PyErr ComparisonResult)
    (codeF docF : FunctionSignature) (similarity : SimilarityScore) :
    Except PyErr HybridComparisonResult := do
  let llmResult ← llm codeF docF
  let embeddingConfidence := pyInt (similarity.score * 100)
  let llmConfidence := llmResult.confidence
  let combined :=
    if similarity.score < 0.3 ∧ llmConfidence > 80 then
      pyInt ((llmConfidence : ℚ) * 0.9)
    else
      pyInt (0.2 * (embeddingConfidence : ℚ) + 0.8 * (llmConfidence : ℚ))
  .ok { matches_ := combined ≥ 80
        confidence := combined
        issues := llmResult.issues
        embedding_score := similarity.score
        llm_confidence := llmConfidence
        method := "llm_focused" }

/-- `HybridComparator.compare`: the branch dispatch over similarity, name
similarity and parameter mismatch.  `llm` is `GeminiComparator.compare`,
abstracted as an arbitrary (possibly failing) remote call. -/
def hybridCompare
    (llm : FunctionSignature → FunctionSignature → Except PyErr ComparisonResult)
    (codeF docF : FunctionSignature) : Except PyErr HybridComparisonResult :=
  let similarity := computeSimilarity codeF docF
  let embeddingScore := similarity.score
  let nameSim := hybridNameSimilarity codeF.name docF.name
  let paramMismatch := hasParameterMismatch codeF docF
  if embeddingScore < embeddingThresholdVeryLow ∨ nameSim < nameThreshold then
    .ok (embeddingOnlyVeryLow codeF docF similarity)
  else if embeddingScore ≥ embeddingThresholdHigh ∧ ¬ paramMismatch then
    .ok (embeddingOnlyResult codeF docF similarity)
  else if embeddingScore ≥ embeddingThresholdMedium then
    hybridLLMComparison llm codeF docF similarity
  else
    llmFocusedComparison llm codeF docF similarity

/-- `to_comparison_result` / the inline conversion in
`analyze_repository`. -/
def toComparisonResult (h : HybridComparisonResult) : ComparisonResult :=
  { matches_ := h.matches_, confidence := h.confidence, issues := h.issues }

/-! ## `match_functions` and `analyze_repository` (`app/comparison/scorer.py`) -/

/-- One matched pair as consumed by the aggregator. -/
abbrev MatchedPair := Option FunctionSignature × Option FunctionSignature

/-- The fallback name matching of `match_functions`
(`doc_map = {d.name.lower(): d …}`, last binding wins). -/
def simpleNameMatch (codeFunctions docFunctions : List FunctionSignature) :
    List MatchedPair :=
  let codePairs := codeFunctions.map (fun c =>
    (some c, (docFunctions.reverse.find? (fun d => pyLower d.name = pyLower c.name))))
  let codeNames := (codeFunctions.map (fun c => pyLower c.name)).toFinset
  codePairs ++ (docFunctions.filter (fun d => ¬ pyLower d.name ∈ codeNames)).map
    (fun d => ((none : Option FunctionSignature), some d))

/-- `match_functions` with `use_semantic_matching` explicit (the scorer
always passes `True`; the semantic branch additionally requires both input
lists non-empty). -/
def matchFunctions (codeFunctions docFunctions : List FunctionSignature)
    (useSemanticMatching : Bool) : List MatchedPair :=
  if useSemanticMatching ∧ codeFunctions.length > 0 ∧ docFunctions.length > 0 then
    (findBestMatches codeFunctions docFunctions 0.5).map (fun t => (t.1, t.2.1))
  else
    simpleNameMatch codeFunctions docFunctions

/-- The issue emitted for a documented-but-absent function. -/
def docOnlyIssue (docF : FunctionSignature) : Issue :=
  { severity := "medium"
    function := docF.name
    issue := "Documented function not found in code"
    code_has := "Function does not exist"
    docs_say := "Documents " ++ docF.name ++ "()"
    suggested_fix := some "Remove from documentation or check if it was renamed" }

/-- The issue emitted for an undocumented function. -/
def codeOnlyIssue (codeF : FunctionSignature) : Issue :=
  { severity := "low"
    function := codeF.name
    issue := "Function exists in code but is not documented"
    code_has := codeF.name ++ "(" ++ paramNamesJoined codeF ++ ")"
    docs_say := "No documentation found"
    suggested_fix := some "Add documentation for this function" }

/-- Loop state of `analyze_repository`: `all_issues`, `verified`,
`total_confidence` and `methods_used` (the write-only
`confidence_scores` list is omitted). -/
structure AnalysisState where
  all_issues : List Issue
  verified : ℕ
  total_confidence : ℤ
  methods_used : List String
deriving DecidableEq, Repr

/-- The `for idx, (code_func, doc_func) in enumerate(matches, 1)` loop of
`analyze_repository` in its `use_hybrid=True` configuration.  A
`(None, None)` pair would crash on `doc_func.name` (`AttributeError`),
which the matcher never produces. -/
def analyzeLoop
    (llm : FunctionSignature → FunctionSignature → Except PyErr ComparisonResult) :
    List MatchedPair → AnalysisState → Except PyErr AnalysisState
  | [], st => .ok st
  | (none, some docF) :: rest, st =>
    analyzeLoop llm rest
      { all_issues := st.all_issues ++ [docOnlyIssue docF]
        verified := st.verified
        total_confidence := st.total_confidence
        methods_used := st.methods_used ++ ["unmatched"] }
  | (some codeF, none) :: rest, st =>
    analyzeLoop llm rest
      { all_issues := st.all_issues ++ [codeOnlyIssue codeF]
        verified := st.verified
        total_confidence := st.total_confidence
        methods_used := st.methods_used ++ ["unmatched"] }
  | (some codeF, some docF) :: rest, st => do
    let result ← hybridCompare llm codeF docF
    let resultComp := toComparisonResult result
    let confidence := resultComp.confidence
    let st' : AnalysisState :=
      if confidence ≥ 80 then
        { all_issues := st.all_issues
          verified := st.verified + 1
          total_confidence := st.total_confidence + confidence
          methods_used := st.methods_used ++ [result.method] }
      else
        { all_issues := st.all_issues ++ resultComp.issues
          verified := st.verified
          total_confidence := st.total_confidence + confidence
          methods_used := st.methods_used ++ [result.method] }
    analyzeLoop llm rest st'
  | (none, none) :: _, _ => .error .attrError

/-- `method_stats`: a Python counting dict over `methods_used` (insertion
order, increments in place). -/
def methodStats (methods : List String) : List (String × ℕ) :=
  methods.foldl
    (fun acc m =>
      if acc.any (·.1 = m) then
        acc.map (fun kv => if kv.1 = m then (kv.1, kv.2 + 1) else kv)
      else acc ++ [(m, 1)])
    []

/-- The dictionary returned by `analyze_repository`. -/
structure AnalysisReport where
  trust_score : ℤ
  total_functions : ℕ
  verified : ℕ
  average_confidence : ℚ
  issues : List Issue
  method_stats : List (String × ℕ)
deriving DecidableEq, Repr

/-- `analyze_repository` with `use_hybrid=True` (the default used by the
pipeline).  `trust_score = int(total_confidence / total)` when there is at
least one pair, else `100`. -/
def analyzeRepository
    (llm : FunctionSignature → FunctionSignature → Except PyErr ComparisonResult)
    (codeFunctions docFunctions : List FunctionSignature) :
    Except PyErr AnalysisReport := do
  let pairs := matchFunctions codeFunctions docFunctions true
  let st ← analyzeLoop llm pairs
    { all_issues := [], verified := 0, total_confidence := 0, methods_used := [] }
  let total := pairs.length
  .ok { trust_score :=
          if total > 0 then pyInt ((st.total_confidence : ℚ) / (total : ℚ)) else 100
        total_functions := total
        verified := st.verified
        average_confidence :=
          if total > 0 then pyRound1 ((st.total_confidence : ℚ) / (total : ℚ))
          else 100.0
        issues := st.all_issues
        method_stats := methodStats st.methods_used }

/-! ## JSON values and `GeminiComparator._parse_response`
(`app/comparison/engine.py`)

`json.loads` is modelled by a strict recursive-descent parser over an
inductive JSON value type.  Numbers are exact rationals tagged with
whether the literal was an integer; `\uXXXX` escapes outside the valid
codepoint range fall back to the null character (CPython would build a
surrogate, which Lean's `Char` cannot hold — no theorem depends on it). -/

/-- A parsed JSON value.  Objects keep their fields in source order;
`dict.get` takes the last binding of a key, as CPython does. -/
inductive JValue where
  | jnull
  | jbool (b : Bool)
  | jnum (q : ℚ) (isInt : Bool)
  | jstr (s : String)
  | jarr (items : List JValue)
  | jobj (fields : List (String × JValue))

/-- JSON insignificant whitespace. -/
def jsonWs (c : Char) : Bool := c = ' ' ∨ c = '\t' ∨ c = '\n' ∨ c = '\r'

/-- Skip JSON whitespace. -/
def skipJsonWs (l : List Char) : List Char := l.dropWhile jsonWs

/-- One hexadecimal digit. -/
def hexVal (c : Char) : Option ℕ :=
  if pyDigit c then some (c.toNat - '0'.toNat)
  else if 'a' ≤ c ∧ c ≤ 'f' then some (c.toNat - 'a'.toNat + 10)
  else if 'A' ≤ c ∧ c ≤ 'F' then some (c.toNat - 'A'.toNat + 10)
  else none

/-- Body of a JSON string, after the opening quote; returns the decoded
characters and the input past the closing quote.  Strict: raw control
characters are rejected. -/
def parseJStrBody : List Char → Option (List Char × List Char)
  | [] => none
  | c :: rest =>
    if c = '"' then some ([], rest)
    else if c = '\\' then
      match rest with
      | [] => none
      | e :: rest2 =>
        if e = '"' ∨ e = '\\' ∨ e = '/' then
          (parseJStrBody rest2).map (fun p => (e :: p.1, p.2))
        else if e = 'b' then (parseJStrBody rest2).map (fun p => ('\x08' :: p.1, p.2))
        else if e = 'f' then (parseJStrBody rest2).map (fun p => ('\x0c' :: p.1, p.2))
        else if e = 'n' then (parseJStrBody rest2).map (fun p => ('\n' :: p.1, p.2))
        else if e = 'r' then (parseJStrBody rest2).map (fun p => ('\r' :: p.1, p.2))
        else if e = 't' then (parseJStrBody rest2).map (fun p => ('\t' :: p.1, p.2))
        else if e = 'u' then
          match rest2 with
          | h1 :: h2 :: h3 :: h4 :: rest3 =>
            match hexVal h1, hexVal h2, hexVal h3, hexVal h4 with
            | some a, some b, some c', some d =>
              (parseJStrBody rest3).map
                (fun p => (Char.ofNat (4096 * a + 256 * b + 16 * c' + d) :: p.1, p.2))
            | _, _, _, _ => none
          | _ => none
        else none
    else if c.toNat < 0x20 then none
    else (parseJStrBody rest).map (fun p => (c :: p.1, p.2))

/-- Digits to a natural number. -/
def digitsToNat (ds : List Char) : ℕ :=
  ds.foldl (fun acc c => 10 * acc + (c.toNat - '0'.toNat)) 0

/-- A JSON number literal: optional `-`, strict integer part, optional
fraction and exponent.  Returns the exact value, the integer flag and the
remaining input. -/
def parseJNum (l : List Char) : Option (JValue × List Char) :=
  let (neg, l1) := match l with
    | '-' :: r => (true, r)
    | _ => (false, l)
  let intPart : Option (ℕ × List Char) := match l1 with
    | '0' :: r => some (0, r)
    | c :: _ =>
      if pyDigit c ∧ c ≠ '0' then
        some (digitsToNat (l1.takeWhile pyDigit), l1.dropWhile pyDigit)
      else none
    | [] => none
  match intPart with
  | none => none
  | some (ip, r1) =>
    let fracPart : Option (ℚ × List Char) := match r1 with
      | '.' :: r2 =>
        let ds := r2.takeWhile pyDigit
        if ds = [] then none
        else some ((digitsToNat ds : ℚ) / (10 : ℚ) ^ ds.length, r2.dropWhile pyDigit)
      | _ => some (0, r1)
    match fracPart with
    | none => none
    | some (fp, r2) =>
      let expPart : Option (ℤ × List Char) := match r2 with
        | e :: r3 =>
          if e = 'e' ∨ e = 'E' then
            let (esign, r4) : ℤ × List Char := match r3 with
              | '+' :: r5 => (1, r5)
              | '-' :: r5 => (-1, r5)
              | _ => (1, r3)
            let ds := r4.takeWhile pyDigit
            if ds = [] then none
            else some (esign * (digitsToNat ds : ℤ), r4.dropWhile pyDigit)
          else some (0, r2)
        | [] => some (0, r2)
      match expPart with
      | none => none
      | some (ex, r3) =>
        let isInt := (match r1 with | '.' :: _ => false | _ => true)
          && (match r2 with | e :: _ => ¬ (e = 'e' ∨ e = 'E') | [] => true)
        let mag : ℚ := ((ip : ℚ) + fp) * (10 : ℚ) ^ ex
        some (.jnum (if neg then -mag else mag) isInt, r3)

mutual

/-- A JSON value (after optional leading whitespace). -/
def parseJValue : ℕ → List Char → Option (JValue × List Char)
  | 0, _ => none
  | fuel + 1, l =>
    match skipJsonWs l with
    | 'n' :: 'u' :: 'l' :: 'l' :: rest => some (.jnull, rest)
    | 't' :: 'r' :: 'u' :: 'e' :: rest => some (.jbool true, rest)
    | 'f' :: 'a' :: 'l' :: 's' :: 'e' :: rest => some (.jbool false, rest)
    | '"' :: rest =>
      (parseJStrBody rest).map (fun p => (.jstr (String.mk p.1), p.2))
    | '[' :: rest =>
      (match skipJsonWs rest with
        | ']' :: r => some (.jarr [], r)
        | l' => (parseJArrItems fuel l').map (fun p => (.jarr p.1, p.2)))
    | '{' :: rest =>
      (match skipJsonWs rest with
        | '}' :: r => some (.jobj [], r)
        | l' => (parseJObjItems fuel l').map (fun p => (.jobj p.1, p.2)))
    | l' => parseJNum l'

/-- Comma-separated array items, ending at `]`. -/
def parseJArrItems : ℕ → List Char → Option (List JValue × List Char)
  | 0, _ => none
  | fuel + 1, l => do
    let (v, r) ← parseJValue fuel l
    match skipJsonWs r with
    | ',' :: r2 => (parseJArrItems fuel r2).map (fun p => (v :: p.1, p.2))
    | ']' :: r2 => some ([v], r2)
    | _ => none

/-- Comma-separated `"key": value` pairs, ending at `}`. -/
def parseJObjItems : ℕ → List Char → Option (List (String × JValue) × List Char)
  | 0, _ => none
  | fuel + 1, l => do
    match skipJsonWs l with
    | '"' :: rest =>
      let (k, r) ← parseJStrBody rest
      match skipJsonWs r with
      | ':' :: r2 => do
        let (v, r3) ← parseJValue fuel r2
        match skipJsonWs r3 with
        | ',' :: r4 =>
          (parseJObjItems fuel r4).map (fun p => ((String.mk k, v) :: p.1, p.2))
        | '}' :: r4 => some ([(String.mk k, v)], r4)
        | _ => none
      | _ => none
    | _ => none

end

/-- `json.loads`: a single JSON document with only surrounding
whitespace. -/
def jsonLoads (s : String) : Option JValue :=
  match parseJValue (2 * s.data.length + 2) s.data with
  | some (v, rest) => if skipJsonWs rest = [] then some v else none
  | none => none

/-- Python `int(s)` on a string: optional sign and decimal digits after
stripping whitespace (PEP 515 underscores are not modelled). -/
def pyIntOfStr (s : String) : Option ℤ :=
  let t := pyStripList s.data
  let p : ℤ × List Char := match t with
    | '+' :: r => (1, r)
    | '-' :: r => (-1, r)
    | _ => (1, t)
  if p.2 ≠ [] ∧ p.2.all pyDigit then some (p.1 * (digitsToNat p.2 : ℤ)) else none

/-- Python `int(x)` on a JSON-decoded value: numbers truncate toward
zero, booleans become `0`/`1`, numeric strings parse, anything else
raises. -/
def pyIntOfJValue : JValue → Except PyErr ℤ
  | .jnum q _ => .ok (pyInt q)
  | .jbool b => .ok (if b then 1 else 0)
  | .jstr s =>
    match pyIntOfStr s with
    | some n => .ok n
    | none => .error .valueError
  | _ => .error .typeError

/-- `result.get(key, dflt)`: on a non-dict value `.get` raises
`AttributeError`; on a dict the last binding of the key wins. -/
def jGet (v : JValue) (key : String) (dflt : JValue) : Except PyErr JValue :=
  match v with
  | .jobj fields =>
    .ok (((fields.reverse.find? (fun p => p.1 = key)).map (·.2)).getD dflt)
  | _ => .error .attrError

/-- Extract a string-typed issue field (see `PyErr.nonStringField`). -/
def jStrOrGap : JValue → Except PyErr String
  | .jstr s => .ok s
  | _ => .error .nonStringField

/-- One element of the reply's `issues` list
(`Issue(severity=i.get("severity", "medium"), …)`). -/
def parseIssueItem (funcName : String) : JValue → Except PyErr Issue
  | .jobj fields => do
    let v := JValue.jobj fields
    let sev ← jGet v "severity" (.jstr "medium") >>= jStrOrGap
    let iss ← jGet v "issue" (.jstr "") >>= jStrOrGap
    let ch ← jGet v "code_has" (.jstr "") >>= jStrOrGap
    let ds ← jGet v "docs_say" (.jstr "") >>= jStrOrGap
    let sf ← jGet v "suggested_fix" (.jstr "") >>= jStrOrGap
    .ok { severity := sev, function := funcName, issue := iss,
          code_has := ch, docs_say := ds, suggested_fix := some sf }
  | _ => .error .attrError

/-- The `for i in result.get("issues", [])` comprehension: iterating a
string yields characters, iterating a dict yields keys — in both cases a
non-empty iteration raises `AttributeError` at `i.get`; non-iterables
raise `TypeError`. -/
def parseIssuesList (funcName : String) : JValue → Except PyErr (List Issue)
  | .jarr items => items.mapM (parseIssueItem funcName)
  | .jstr s => if s.isEmpty then .ok [] else .error .attrError
  | .jobj fields => if fields.isEmpty then .ok [] else .error .attrError
  | _ => .error .typeError

/-- What `_parse_response` builds (the `matches` field is stored verbatim
from the reply, so it is an arbitrary JSON value). -/
structure ParsedResult where
  matches_ : JValue
  confidence : ℤ
  issues : List Issue

/-- `text[text.find("{") : text.rfind("}") + 1]`, with the literal guard
`if start != -1 and end != -1 else "{}"` (note `end = rfind + 1` can never
be `-1`). -/
def extractJsonSpan (text : String) : String :=
  let cs := text.data
  let start := pyFindChar cs '{'
  let stop := pyRFindChar cs '}' + 1
  if start ≠ -1 ∧ stop ≠ -1 then String.mk (pySlice cs start stop) else "{}"

/-- The fallback dict assigned in the `except` branch of
`_parse_response`. -/
def defaultReplyObj : JValue :=
  .jobj [("matches", .jbool false), ("confidence", .jnum 0 true),
    ("issues", .jarr [])]

/-- `GeminiComparator._parse_response`. -/
def parseResponse (text funcName : String) : Except PyErr ParsedResult := do
  let jsonText := extractJsonSpan text
  let result := (jsonLoads jsonText).getD defaultReplyObj
  let issuesV ← jGet result "issues" (.jarr [])
  let issues ← parseIssuesList funcName issuesV
  let matchesV ← jGet result "matches" (.jbool false)
  let confV ← jGet result "confidence" (.jnum 0 true)
  let confidence ← pyIntOfJValue confV
  .ok { matches_ := matchesV, confidence := confidence, issues := issues }

/-- The per-language parsers consumed by `parse_code`
(`parse_java`, `parse_markdown`, `parse_json`, `parse_python`,
`parse_javascript`, `parse_typescript`), as arbitrary fallible
`(code, filename) ↦ signatures` functions. -/
structure LangParsers where
  java : String → String → Except PyErr (List FunctionSignature)
  markdown : String → String → Except PyErr (List FunctionSignature)
  json : String → String → Except PyErr (List FunctionSignature)
  python : String → String → Except PyErr (List FunctionSignature)
  javascript : String → String → Except PyErr (List FunctionSignature)
  typescript : String → String → Except PyErr (List FunctionSignature)

/-- The `_parse_<lang>` wrappers: `try: return parser(code, filename)
except Exception: return []`. -/
def wrapParser (p : String → String → Except PyErr (List FunctionSignature))
    (code filename : String) : List FunctionSignature :=
  match p code filename with
  | .ok fs => fs
  | .error _ => []

/-- `get_supported_extensions`. -/
def getSupportedExtensions : List String :=
  [".java", ".md", ".markdown", ".json", ".py", ".js", ".jsx", ".ts", ".tsx"]

/-- `is_supported`. -/
def isSupported (filename : String) : Bool :=
  getSupportedExtensions.any (fun ext => pyEndsWith (pyLower filename) ext)

/-- `parse_code`: empty/whitespace guard, then suffix dispatch; unknown
suffixes yield `[]`.  The `Except` result witnesses that no branch can
raise. -/
def parseCode (P : LangParsers) (filename code : String) :
    Except PyErr (List FunctionSignature) :=
  if code = "" ∨ pyStrip code = "" then .ok []
  else
    let fl := pyLower filename
    if pyEndsWith fl ".java" then .ok (wrapParser P.java code filename)
    else if pyEndsWith fl ".md" ∨ pyEndsWith fl ".markdown" then
      .ok (wrapParser P.markdown code filename)
    else if pyEndsWith fl ".json" then .ok (wrapParser P.json code filename)
    else if pyEndsWith fl ".py" then .ok (wrapParser P.python code filename)
    else if pyEndsWith fl ".js" ∨ pyEndsWith fl ".jsx" then
      .ok (wrapParser P.javascript code filename)
    else if pyEndsWith fl ".ts" ∨ pyEndsWith fl ".tsx" then
      .ok (wrapParser P.typescript code filename)
    else .ok []

/-! ## Documentation extractor (`app/parsers/markdown_parser.py`)

The regular expressions of `parse_markdown` are translated into direct
scanning functions.  Each helper names the pattern it implements; the
backtracking behaviour of `\s*\n` (greedy whitespace ending at the last
newline of the run) and of alternations is reproduced explicitly, and was
checked against CPython `re` on the shapes that occur. -/

/-- The regex class `\w` (ASCII). -/
def wordChar (c : Char) : Bool := pyUpperAZ c || pyLowerAZ c || pyDigit c || c = '_'

/-- `^[a-zA-Z_][a-zA-Z0-9_.-]*$`. -/
def identPattern (s : String) : Bool :=
  match s.data with
  | [] => false
  | c :: rest =>
    (pyUpperAZ c || pyLowerAZ c || c = '_')
      && rest.all (fun d => wordChar d || d = '.' || d = '-')

/-- `^[a-zA-Z][a-zA-Z0-9]*$`. -/
def alnumWordPattern (w : String) : Bool :=
  match w.data with
  | [] => false
  | c :: rest =>
    (pyUpperAZ c || pyLowerAZ c)
      && rest.all (fun d => pyUpperAZ d || pyLowerAZ d || pyDigit d)

/-- `_looks_like_function_name`'s list of skipped section titles. -/
def skipTitleWords : List String :=
  ["parameters", "parameter", "returns", "return", "description",
   "overview", "introduction", "getting started", "installation",
   "changelog", "contributing", "license", "api reference"]

/-- The article/preposition first words rejected for multi-word names. -/
def articleWords : List String :=
  ["the", "a", "an", "how", "what", "when", "where", "why", "to"]

/-- `_looks_like_function_name`.  `clean_text[0]` raises `IndexError` when
the text reduces to `""` after `.replace('()','').strip()` (e.g. a heading
`()`), so the result is fallible. -/
def looksLikeFunctionName (text : String) : Except PyErr Bool :=
  let t := pyStripChars ['`'] text
  if t = "" ∨ t.length < 2 then .ok false
  else if skipTitleWords.contains (pyLower t) then .ok false
  else
    let clean := pyStrip (pyReplace t "()" "")
    let words := pySplitWs clean
    if words.length > 4 then .ok false
    else if clean.length > 70 then .ok false
    else
      match clean.data with
      | [] => .error .indexError
      | c0 :: _ =>
        if ¬ (c0.isAlpha ∨ c0 = '_') then .ok false
        else
          let hasSpace := clean.data.contains ' '
          if ¬ hasSpace ∧ identPattern clean then .ok true
          else if hasSpace ∧ 2 ≤ words.length ∧ words.length ≤ 4
              ∧ ¬ articleWords.contains (pyLower (words.headD ""))
              ∧ words.all alnumWordPattern then .ok true
          else if identPattern clean then .ok true
          else .ok false

/-- Try a matcher at every position, leftmost match wins (`re.search`). -/
def scanFirst {α : Type} (f : List Char → Option α) : List Char → Option α
  | [] => f []
  | c :: rest =>
    match f (c :: rest) with
    | some r => some r
    | none => scanFirst f rest

/-- Try a matcher after every newline (the non-initial positions of a
`re.MULTILINE` `^`). -/
def scanAfterNl {α : Type} (f : List Char → Option α) : List Char → Option α
  | [] => none
  | c :: rest =>
    if c = '\n' then
      match f rest with
      | some r => some r
      | none => scanAfterNl f rest
    else scanAfterNl f rest

/-- `re.search` of a `^`-anchored pattern under `re.MULTILINE`. -/
def scanMultiline {α : Type} (f : List Char → Option α) (l : List Char) : Option α :=
  match f l with
  | some r => some r
  | none => scanAfterNl f l

/-- Consume a case-insensitive literal. -/
def stripCI : List Char → List Char → Option (List Char)
  | [], l => some l
  | w :: ws, c :: cs => if c.toLower = w.toLower then stripCI ws cs else none
  | _ :: _, [] => none

/-- Consume `\s+`. -/
def stripWsPlus (l : List Char) : Option (List Char) :=
  match l with
  | c :: _ => if pyIsSpace c then some (l.dropWhile pyIsSpace) else none
  | [] => none

/-- Consume `\s*\n` with its backtracking: the greedy whitespace run must
contain a newline, and matching resumes after the *last* newline of the
run. -/
def stripWsThenNl (l : List Char) : Option (List Char) :=
  let run := l.takeWhile pyIsSpace
  let rest := l.dropWhile pyIsSpace
  match run.reverse.findIdx? (· = '\n') with
  | none => none
  | some k => some ((run.reverse.take k).reverse ++ rest)

/-- After a section word, consume the optional case-insensitive `s` and
then `\s*\n`, backtracking over the `s` if needed. -/
def afterOptionalS (l : List Char) : Option (List Char) :=
  match l with
  | c :: rest =>
    if c = 's' ∨ c = 'S' then
      match stripWsThenNl rest with
      | some r => some r
      | none => stripWsThenNl (c :: rest)
    else stripWsThenNl (c :: rest)
  | [] => none

/-- `(?:###\s+WORDs?|##\s+WORDs?)\s*\n` at one position: try three hashes
first, then two. -/
def matchSectionHeading (word : List Char) (l : List Char) : Option (List Char) :=
  let try3 :=
    match l with
    | '#' :: '#' :: '#' :: rest =>
      ((stripWsPlus rest).bind (stripCI word)).bind afterOptionalS
    | _ => none
  match try3 with
  | some r => some r
  | none =>
    match l with
    | '#' :: '#' :: rest =>
      ((stripWsPlus rest).bind (stripCI word)).bind afterOptionalS
    | _ => none

/-- Capture a lazy `(.*?)` up to the first position where `stop` holds
(`\Z` always stops). -/
def captureUntil (stop : List Char → Bool) : List Char → List Char
  | [] => []
  | c :: rest => if stop (c :: rest) then [] else c :: captureUntil stop rest

/-- The lookahead `(?=\n###|\n##|\nReturns|\Z)` of the parameter-section
patterns (`\n##` subsumes `\n###`; `Returns` is case-insensitive). -/
def stopParamsSection (l : List Char) : Bool :=
  match l with
  | '\n' :: '#' :: '#' :: _ => true
  | '\n' :: rest => (stripCI "Returns".data rest).isSome
  | _ => false

/-- The word of `Parameters?`. -/
def paramWord : List Char := "Parameter".data

/-- The word of `Returns?`. -/
def returnWord : List Char := "Return".data

/-- The two `params_patterns` searches of `_parse_function_from_heading`:
a `##`/`###` `Parameters` heading anywhere, else a `Parameters` line at a
line start; the captured section runs to the lookahead. -/
def findParamsSection (sectionText : List Char) : Option (List Char) :=
  match scanFirst (matchSectionHeading paramWord) sectionText with
  | some contentStart => some (captureUntil stopParamsSection contentStart)
  | none =>
    match scanMultiline (fun l => (stripCI paramWord l).bind afterOptionalS)
        sectionText with
    | some contentStart => some (captureUntil stopParamsSection contentStart)
    | none => none

/-- `[-*]\s*` a backtick, a non-empty name of `\w`, a backtick. -/
def matchDashBacktick (l : List Char) : Option (List Char) :=
  match l with
  | c :: rest =>
    if c = '-' ∨ c = '*' then
      match rest.dropWhile pyIsSpace with
      | '`' :: r2 =>
        let content := r2.takeWhile (· ≠ '`')
        if content ≠ [] ∧ (r2.dropWhile (· ≠ '`')) ≠ [] then some content
        else none
      | _ => none
    else none
  | [] => none

/-- The lookahead `(?=\n###|\n##|\n[A-Z]|\Z)` of the third returns
pattern (`[A-Z]` matches any ASCII letter under `re.IGNORECASE`). -/
def stopReturnsCapture (l : List Char) : Bool :=
  match l with
  | '\n' :: '#' :: '#' :: _ => true
  | '\n' :: c :: _ => c.isAlpha
  | _ => false

/-- Post-processing of a returns capture: `strip`, `rstrip('.,;')`, cut at
the first `:`, `strip('`')`; empty results are rejected (the pattern loop
then continues). -/
def processReturnGroup (cap : List Char) : Option String :=
  let s := pyRStripChars ['.', ',', ';'] (pyStrip (String.mk cap))
  let s2 :=
    if s.data.contains ':' then pyStrip (String.mk (s.data.takeWhile (· ≠ ':')))
    else s
  let s3 := pyStripChars ['`'] s2
  if s3 = "" then none else some s3

/-- The four `returns_patterns` searches, in order; a capture that
post-processes to the empty string does not stop the loop. -/
def findReturnType (sectionText : List Char) : Option String :=
  let r0 :=
    (scanFirst (matchSectionHeading returnWord) sectionText).bind
      (scanFirst matchDashBacktick)
  let r1 :=
    (scanMultiline (fun l => (stripCI returnWord l).bind afterOptionalS)
      sectionText).bind (scanFirst matchDashBacktick)
  let r2 :=
    (scanFirst (matchSectionHeading returnWord) sectionText).map
      (captureUntil stopReturnsCapture)
  let r3 :=
    (scanMultiline (fun l => (stripCI returnWord l).bind afterOptionalS)
      sectionText).bind
      (fun rest =>
        let cap := rest.takeWhile (· ≠ '\n')
        if cap = [] then none else some cap)
  [r0, r1, r2, r3].foldl
    (fun acc c =>
      match acc with
      | some _ => acc
      | none => c.bind processReturnGroup)
    none

/-- Shared tail of the four `param_patterns`: `` `name` `` already
consumed up to after the name's closing backtick is handled by the
callers; this consumes `\s*\(([^)]+)\)\s*:` and returns the raw type. -/
def matchParamTypeColon (l : List Char) : Option (List Char) :=
  match l.dropWhile pyIsSpace with
  | '(' :: r1 =>
    let ty := r1.takeWhile (· ≠ ')')
    if ty = [] then none
    else
      match r1.dropWhile (· ≠ ')') with
      | ')' :: r2 =>
        (match r2.dropWhile pyIsSpace with
          | ':' :: _ => some ty
          | _ => none)
      | _ => none
  | _ => none

/-- `\s*:` (for the type-less patterns). -/
def matchColon (l : List Char) : Bool :=
  match l.dropWhile pyIsSpace with
  | ':' :: _ => true
  | _ => false

/-- One parameter line against the four `param_patterns` in order
(`re.match`, so anchored at the stripped line's start).  Returns the name
and the optional raw type group. -/
def parseParamLine (l : List Char) : Option (String × Option (List Char)) :=
  let p0 : Option (String × Option (List Char)) :=
    match l with
    | c :: rest =>
      if c = '-' ∨ c = '*' then
        match rest.dropWhile pyIsSpace with
        | '`' :: r2 =>
          let nm := r2.takeWhile wordChar
          if nm = [] then none
          else
            match r2.dropWhile wordChar with
            | '`' :: r3 =>
              (matchParamTypeColon r3).map (fun ty => (String.mk nm, some ty))
            | _ => none
        | _ => none
      else none
    | [] => none
  match p0 with
  | some r => some r
  | none =>
    let p1 : Option (String × Option (List Char)) :=
      match l with
      | c :: rest =>
        if c = '-' ∨ c = '*' then
          match rest.dropWhile pyIsSpace with
          | '`' :: r2 =>
            let nm := r2.takeWhile wordChar
            if nm = [] then none
            else
              match r2.dropWhile wordChar with
              | '`' :: r3 => if matchColon r3 then some (String.mk nm, none) else none
              | _ => none
          | _ => none
        else none
      | [] => none
    match p1 with
    | some r => some r
    | none =>
      let nm := l.takeWhile wordChar
      if nm = [] then none
      else
        let r1 := l.dropWhile wordChar
        match matchParamTypeColon r1 with
        | some ty => some (String.mk nm, some ty)
        | none => if matchColon r1 then some (String.mk nm, none) else none

/-- The parameter-collection loop over `params_section.split('\n')`:
strip, skip empties and `#` lines, first pattern wins, first occurrence of
a name wins; a captured type group is stripped. -/
def collectParams (sectionLines : List String) : List Parameter :=
  sectionLines.foldl
    (fun acc line =>
      let l := pyStrip line
      if l = "" ∨ pyStartsWith l "#" then acc
      else
        match parseParamLine l.data with
        | none => acc
        | some (nm, tyRaw) =>
          let ty := tyRaw.map (fun t => pyStrip (String.mk t))
          if acc.any (fun p => p.name = nm) then acc
          else acc ++ [{ name := nm, type := ty }])
    []

/-- `_parse_function_from_heading`. -/
def parseFuncFromHeading (heading : String) (headingLine : ℕ)
    (sectionContent : List String) (filename : String) : FunctionSignature :=
  let funcName := pyStripChars ['`'] heading
  let sectionText := (String.intercalate "\n" sectionContent).data
  let params :=
    match findParamsSection sectionText with
    | some sec => collectParams (pySplitNl (String.mk sec))
    | none => []
  { name := funcName
    parameters := params
    return_type := findReturnType sectionText
    docstring := none
    line_number := headingLine
    file_path := filename }

/-- `_parse_function_from_content`: the whole file is one function's
section. -/
def parseFuncFromContent (funcName : String) (lines : List String)
    (filename : String) : FunctionSignature :=
  parseFuncFromHeading funcName 1 lines filename

/-- `params_str.split(',')` into stripped, non-empty parameter names. -/
def splitParamsStr (paramsStr : String) : List Parameter :=
  if paramsStr = "" then []
  else
    (pySplitOnChar ',' paramsStr).foldl
      (fun acc piece =>
        let p := pyStrip piece
        if p = "" then acc else acc ++ [{ name := p : Parameter }])
      []

/-- `re.finditer`: leftmost, non-overlapping; on a miss advance one
character.  Every matcher used here consumes at least one character, so
`length + 1` steps suffice. -/
def finditerAux {α : Type} (m : List Char → Option (α × List Char)) :
    ℕ → List Char → List α
  | 0, _ => []
  | fuel + 1, l =>
    match l with
    | [] => []
    | c :: rest =>
      match m (c :: rest) with
      | some (a, r) => a :: finditerAux m fuel r
      | none => finditerAux m fuel rest

/-- `re.finditer` over a character list. -/
def finditer {α : Type} (m : List Char → Option (α × List Char))
    (l : List Char) : List α :=
  finditerAux m (l.length + 1) l

/-- Shared tail `\s+(\w+)\s*\(([^)]*)\)` of the code-block patterns (the
parameter group may be empty). -/
def matchFuncTail (after : List Char) : Option ((String × String) × List Char) := do
  let r2 ← stripWsPlus after
  let nm := r2.takeWhile wordChar
  if nm = [] then none
  else
    match (r2.dropWhile wordChar).dropWhile pyIsSpace with
    | '(' :: r3 =>
      let ps := r3.takeWhile (· ≠ ')')
      match r3.dropWhile (· ≠ ')') with
      | ')' :: r4 => some ((String.mk nm, String.mk ps), r4)
      | _ => none
    | _ => none

/-- `KEYWORD\s+(\w+)\s*\(([^)]*)\)` (for `def` and `function`;
case-sensitive). -/
def matchKwFunc (kw : List Char) (l : List Char) :
    Option ((String × String) × List Char) :=
  if kw.isPrefixOf l then matchFuncTail (l.drop kw.length) else none

/-- `(?:public|private|void|\w+)\s+(\w+)\s*\(([^)]*)\)`: alternatives in
order, then a maximal `\w+` run. -/
def matchJavaStyle (l : List Char) : Option ((String × String) × List Char) :=
  let tryLit (w : List Char) : Option ((String × String) × List Char) :=
    if w.isPrefixOf l then matchFuncTail (l.drop w.length) else none
  match tryLit "public".data with
  | some r => some r
  | none =>
    match tryLit "private".data with
    | some r => some r
    | none =>
      match tryLit "void".data with
      | some r => some r
      | none =>
        let run := l.takeWhile wordChar
        if run = [] then none else matchFuncTail (l.dropWhile wordChar)

/-- The control-flow names skipped by `_parse_code_block`. -/
def codeBlockSkipNames : List String := ["if", "while", "for", "switch", "return"]

/-- `_parse_code_block`: three signature patterns over the block, in
pattern order, with the control-flow filter. -/
def parseCodeBlock (code : String) (_lang : String) (startLine : ℕ)
    (filename : String) (heading : Option String) : List FunctionSignature :=
  let mk (p : String × String) : FunctionSignature :=
    { name := p.1
      parameters := splitParamsStr p.2
      return_type := none
      docstring := heading
      line_number := startLine
      file_path := filename }
  let keep (p : String × String) : Bool := ¬ codeBlockSkipNames.contains p.1
  let cs := code.data
  ((finditer (matchKwFunc "def".data) cs).filter keep).map mk
    ++ ((finditer (matchKwFunc "function".data) cs).filter keep).map mk
    ++ ((finditer matchJavaStyle cs).filter keep).map mk

/-- The inline skip list of `_parse_inline_refs`. -/
def inlineSkipNames : List String :=
  ["print", "log", "console", "example", "example_", "test_",
   "if", "while", "for", "return", "yield", "assert", "raise"]

/-- `` `(?:[\w.]+\.)?(\w+)\(([^)]*)\)` `` at one position: a backtick, an
optional dotted qualifier, a name, a parenthesised argument list, a
closing backtick. -/
def matchInlineRef (l : List Char) : Option ((String × String) × List Char) :=
  match l with
  | '`' :: r1 =>
    let run := r1.takeWhile (fun c => wordChar c || c = '.')
    if run = [] then none
    else
      let nm := (run.reverse.takeWhile (· ≠ '.')).reverse
      if nm = [] then none
      else
        match r1.dropWhile (fun c => wordChar c || c = '.') with
        | '(' :: r2 =>
          let ps := r2.takeWhile (· ≠ ')')
          match r2.dropWhile (· ≠ ')') with
          | ')' :: '`' :: r3 => some ((String.mk nm, String.mk ps), r3)
          | _ => none
        | _ => none
  | _ => none

/-- `_parse_inline_refs`. -/
def parseInlineRefs (line : String) (lineNum : ℕ) (filename : String) :
    List FunctionSignature :=
  (finditer matchInlineRef line.data).foldl
    (fun acc p =>
      let nm := p.1
      let nmLower := pyLower nm
      if inlineSkipNames.contains nmLower
          ∨ pyStartsWith nmLower "test_" ∨ pyStartsWith nmLower "example_" then acc
      else if (String.mk (nm.data.takeWhile (· ≠ '('))).data.contains '.'
          ∧ ¬ nm.data.any Char.isAlpha then acc
      else
        acc ++ [{ name := nm
                  parameters := splitParamsStr p.2
                  line_number := lineNum
                  file_path := filename }])
    []

/-- `re.match(r'^(#{1,6})\s+(.+)$', line)`: 1–6 leading hashes (seven or
more never match), at least one whitespace character, and a non-empty
remainder; when the remainder is all whitespace the greedy `\s+`
backtracks one character so `group(2)` is the last whitespace character. -/
def headingMatch (line : String) : Option (ℕ × String) :=
  let cs := line.data
  let k := (cs.takeWhile (· = '#')).length
  if 1 ≤ k ∧ k ≤ 6 then
    let rest := cs.drop k
    let w := rest.takeWhile pyIsSpace
    if w = [] then none
    else if (rest.drop w.length) ≠ [] then some (k, String.mk (rest.drop w.length))
    else if rest.length ≥ 2 then
      (rest.getLast?).map (fun c => (k, String.mk [c]))
    else none
  else none

/-- `re.match(r'^#{1,6}\s+WORD', line, re.IGNORECASE)` (a prefix match:
the optional trailing `s` of `Parameters?`/`Returns?` is irrelevant). -/
def lineIsSectionFlag (word : List Char) (line : String) : Bool :=
  let cs := line.data
  let k := (cs.takeWhile (· = '#')).length
  if 1 ≤ k ∧ k ≤ 6 then
    match stripWsPlus (cs.drop k) with
    | some r => (stripCI word r).isSome
    | none => false
  else false

/-- `os.path.basename` (POSIX separators). -/
def pyBasename (s : String) : String :=
  String.mk ((s.data.reverse.takeWhile (· ≠ '/')).reverse)

/-- The root part of `os.path.splitext`: split at the last dot, unless
every character before it is a dot. -/
def pySplitextRoot (s : String) : String :=
  let cs := s.data
  match cs.reverse.findIdx? (· = '.') with
  | none => s
  | some rk =>
    let dotIdx := cs.length - 1 - rk
    if (cs.take dotIdx).any (· ≠ '.') then String.mk (cs.take dotIdx) else s

/-- `re.sub(r'^doc[-_]?', '', base, flags=re.IGNORECASE)`: drop a leading
`doc` and one optional separator. -/
def stripDocPre (base : String) : String :=
  match base.data with
  | d :: o :: c :: rest =>
    if d.toLower = 'd' ∧ o.toLower = 'o' ∧ c.toLower = 'c' then
      match rest with
      | h :: rest2 => if h = '-' ∨ h = '_' then String.mk rest2 else String.mk rest
      | [] => ""
    else base
  | _ => base

/-- The `filename_func_name` computation at the top of `parse_markdown`:
only set when stripping actually changed the basename's root. -/
def filenameFuncNameOf (filename : String) : Option String :=
  if filename = "" then none
  else
    let base := pySplitextRoot (pyBasename filename)
    let name := stripDocPre base
    if name ≠ "" ∧ name ≠ base then some name else none

/-- The mutable locals of `parse_markdown`'s line loop. -/
structure MdState where
  functions : List FunctionSignature
  inCodeBlock : Bool
  codeBlockLang : String
  codeBlockContent : List String
  codeBlockStart : ℕ
  currentHeading : Option String
  currentHeadingLine : ℕ
  inParametersSection : Bool
  inReturnsSection : Bool
  sectionContent : List String

/-- The loop state before the first line. -/
def mdInit : MdState :=
  { functions := [], inCodeBlock := false, codeBlockLang := ""
    codeBlockContent := [], codeBlockStart := 0, currentHeading := none
    currentHeadingLine := 0, inParametersSection := false
    inReturnsSection := false, sectionContent := [] }

/-- `skip_descriptive_words` (substring matches against the last
heading). -/
def skipDescriptiveWords : List String :=
  ["perfect", "documentation", "description", "overview", "introduction",
   "guide", "tutorial", "example", "examples"]

/-- One iteration of `for i, line in enumerate(lines)`. -/
def mdStep (filename : String) (i : ℕ) (line : String) (st : MdState) :
    Except PyErr MdState := do
  let lineNum := i + 1
  match headingMatch line with
  | some (level, g2raw) => do
    let headingText := pyStrip g2raw
    let functions1 ←
      if level = 2 ∧ pyTruthyOpt st.currentHeading then do
        let q ← looksLikeFunctionName (st.currentHeading.getD "")
        if q then
          pure (st.functions ++ [parseFuncFromHeading (st.currentHeading.getD "")
            st.currentHeadingLine st.sectionContent filename])
        else pure st.functions
      else pure st.functions
    if level = 2 then
      let flags : Bool × Bool :=
        if lineIsSectionFlag paramWord line then (true, false)
        else if lineIsSectionFlag returnWord line then (false, true)
        else (false, false)
      .ok { st with
            functions := functions1,
            currentHeading := some headingText,
            currentHeadingLine := lineNum,
            sectionContent := [],
            inParametersSection := flags.1,
            inReturnsSection := flags.2 }
    else if pyTruthyOpt st.currentHeading then
      .ok { st with
            functions := functions1,
            sectionContent := st.sectionContent ++ [line] }
    else
      let flags : Bool × Bool :=
        if lineIsSectionFlag paramWord line then (true, st.inReturnsSection)
        else if lineIsSectionFlag returnWord line then (st.inParametersSection, true)
        else (st.inParametersSection, st.inReturnsSection)
      .ok { st with
            functions := functions1,
            inParametersSection := flags.1,
            inReturnsSection := flags.2 }
  | none =>
    let st1 :=
      if pyTruthyOpt st.currentHeading then
        { st with sectionContent := st.sectionContent ++ [line] }
      else st
    if pyStartsWith (pyStrip line) "```" then
      if ¬ st1.inCodeBlock then
        .ok { st1 with
              inCodeBlock := true,
              codeBlockLang := pyLower (String.mk ((pyStrip line).data.drop 3)),
              codeBlockContent := [],
              codeBlockStart := lineNum }
      else do
        let functions2 ←
          if st1.codeBlockContent ≠ [] ∧ pyTruthyOpt st1.currentHeading then do
            let q ← looksLikeFunctionName (st1.currentHeading.getD "")
            if q then
              let blockFuncs := parseCodeBlock
                (String.intercalate "\n" st1.codeBlockContent) st1.codeBlockLang
                st1.codeBlockStart filename st1.currentHeading
              pure (st1.functions ++ blockFuncs.filter (fun f => f.name.length > 2))
            else pure st1.functions
          else pure st1.functions
        .ok { st1 with functions := functions2, inCodeBlock := false }
    else if st1.inCodeBlock then
      .ok { st1 with codeBlockContent := st1.codeBlockContent ++ [line] }
    else if pyTruthyOpt st1.currentHeading then do
      let q ← looksLikeFunctionName (st1.currentHeading.getD "")
      if q then
        let inline := (parseInlineRefs line lineNum filename).filter
          (fun f => f.name.length > 2
            ∧ ¬ ["if", "for", "while", "return"].contains (pyLower f.name))
        .ok { st1 with functions := st1.functions ++ inline }
      else .ok st1
    else .ok st1

/-- The whole line loop. -/
def mdLoop (filename : String) : List (ℕ × String) → MdState → Except PyErr MdState
  | [], st => .ok st
  | (i, line) :: rest, st => do
    let st' ← mdStep filename i line st
    mdLoop filename rest st'

/-- The `elif current_heading and _looks_like_function_name(...)` phase
after the loop: emit the last open section unless its heading contains a
descriptive word. -/
def elifHeadingPhase (st : MdState) (filename : String) :
    Except PyErr (List FunctionSignature) := do
  if pyTruthyOpt st.currentHeading then do
    let q ← looksLikeFunctionName (st.currentHeading.getD "")
    if q then
      let headingLower := pyLower (st.currentHeading.getD "")
      let isDescriptive := skipDescriptiveWords.any
        (fun w => pyContainsSub headingLower.data w.data)
      if ¬ isDescriptive then
        pure (st.functions ++ [parseFuncFromHeading (st.currentHeading.getD "")
          st.currentHeadingLine st.sectionContent filename])
      else pure st.functions
    else pure st.functions
  else pure st.functions

/-- The final case-insensitive dedup (first occurrence of a name wins). -/
def dedupByName : List FunctionSignature → List String → List FunctionSignature
  | [], _ => []
  | f :: rest, seen =>
    if seen.contains (pyLower f.name) then dedupByName rest seen
    else f :: dedupByName rest (pyLower f.name :: seen)

/-- `parse_markdown`.  Note the priority at the end of the function: a
usable filename-derived name is *always* appended (the `elif` that would
finalize the last heading section is then skipped). -/
def parseMarkdown (code filename : String) : Except PyErr (List FunctionSignature) := do
  let lines := pySplitNl code
  let filenameFuncName := filenameFuncNameOf filename
  let st ← mdLoop filename lines.enum mdInit
  let functions1 ←
    match filenameFuncName with
    | some n => do
      let q ← looksLikeFunctionName n
      if q then pure (st.functions ++ [parseFuncFromContent n lines filename])
      else elifHeadingPhase st filename
    | none => elifHeadingPhase st filename
  let functions2 ←
    if functions1 = [] ∧ filename ≠ "" then
      match filenameFuncNameOf filename with
      | some n => do
        let q ← looksLikeFunctionName n
        if q then pure (functions1 ++ [parseFuncFromContent n lines filename])
        else pure functions1
      | none => pure functions1
    else pure functions1
  .ok (dedupByName functions2 [])

/-! ## Specification-side definitions used for refinement claims -/

/-- Modelled from the spec (claim C6): the feature-similarity blend as the
specification words it — the parameter-count closeness term weighted 30%
and present *"including when both signatures have zero parameters"*, and
return-type agreement with a *"0.5 baseline when both return types are
absent"*.  The positional-type and docstring terms follow the code's
defaults, which the claim does not dispute. -/
def specFeatureSimilarity (func1 func2 : FunctionSignature) : ℚ :=
  let params1 := func1.parameters.length
  let params2 := func2.parameters.length
  let paramCountTerm : ℚ :=
    0.3 * (1 - |(params1 : ℚ) - (params2 : ℚ)| / max (params1 : ℚ) (max (params2 : ℚ) 1))
  let retTerm : ℚ :=
    if pyTruthyOpt func1.return_type ∧ pyTruthyOpt func2.return_type then
      0.2 * (if func1.return_type = func2.return_type then 1 else 0.5)
    else 0.2 * 0.5
  let typeTerm : ℚ :=
    if func1.parameters ≠ [] ∧ func2.parameters ≠ [] then
      0.3 * ((((func1.parameters.zip func2.parameters).countP
        (fun pq => pyTruthyOpt pq.1.type ∧ pyTruthyOpt pq.2.type
          ∧ pq.1.type = pq.2.type)) : ℚ) / (max params1 params2 : ℚ))
    else 0.3 * 0.5
  let docTerm : ℚ :=
    if pyTruthyOpt func1.docstring ∧ pyTruthyOpt func2.docstring then
      let words1 := pySplitWs (pyLower (func1.docstring.getD ""))
      let words2 := pySplitWs (pyLower (func2.docstring.getD ""))
      if words1 ≠ [] ∧ words2 ≠ [] then
        0.2 * (((words1.toFinset ∩ words2.toFinset).card : ℚ)
          / ((words1.toFinset ∪ words2.toFinset).card : ℚ))
      else 0.2 * 0.5
    else 0.2 * 0.5
  paramCountTerm + retTerm + typeTerm + docTerm

/-- The corrected feature-similarity formula (claim C6 as amended): the
parameter-count term is omitted entirely when both signatures have zero
parameters, and two absent return types score full agreement (`1.0`), not
a `0.5` baseline. -/
def amendedFeatureSpec (func1 func2 : FunctionSignature) : ℚ :=
  let params1 := func1.parameters.length
  let params2 := func2.parameters.length
  let paramCountTerm : ℚ :=
    if params1 = 0 ∧ params2 = 0 then 0
    else 0.3 * (1 - |(params1 : ℚ) - (params2 : ℚ)|
      / max (params1 : ℚ) (max (params2 : ℚ) 1))
  let retTerm : ℚ :=
    if pyTruthyOpt func1.return_type ∧ pyTruthyOpt func2.return_type then
      0.2 * (if func1.return_type = func2.return_type then 1 else 0.5)
    else if ¬ pyTruthyOpt func1.return_type ∧ ¬ pyTruthyOpt func2.return_type then
      0.2 * 1
    else 0.2 * 0.5
  let typeTerm : ℚ :=
    if func1.parameters ≠ [] ∧ func2.parameters ≠ [] then
      0.3 * ((((func1.parameters.zip func2.parameters).countP
        (fun pq => pyTruthyOpt pq.1.type ∧ pyTruthyOpt pq.2.type
          ∧ pq.1.type = pq.2.type)) : ℚ) / (max params1 params2 : ℚ))
    else 0.3 * 0.5
  let docTerm : ℚ :=
    if pyTruthyOpt func1.docstring ∧ pyTruthyOpt func2.docstring then
      let words1 := pySplitWs (pyLower (func1.docstring.getD ""))
      let words2 := pySplitWs (pyLower (func2.docstring.getD ""))
      if words1 ≠ [] ∧ words2 ≠ [] then
        0.2 * (((words1.toFinset ∩ words2.toFinset).card : ℚ)
          / ((words1.toFinset ∪ words2.toFinset).card : ℚ))
      else 0.2 * 0.5
    else 0.2 * 0.5
  paramCountTerm + retTerm + typeTerm + docTerm

/-- Independent recomputation of the aggregator loop's confidence total:
one-sided pairs contribute `0`, matched pairs the hybrid comparator's
confidence, a `(None, None)` pair the loop's `AttributeError`. -/
def pairConfidence
    (llm : FunctionSignature → FunctionSignature → Except PyErr ComparisonResult) :
    MatchedPair → Except PyErr ℤ
  | (some c, some d) => (hybridCompare llm c d).map (·.confidence)
  | (none, none) => .error .attrError
  | _ => .ok 0

/-- The confidence total of an analysis, recomputed independently of the
loop. -/
def specTotalConfidence
    (llm : FunctionSignature → FunctionSignature → Except PyErr ComparisonResult) :
    List MatchedPair → Except PyErr ℤ
  | [] => .ok 0
  | p :: rest => do
    let c ← pairConfidence llm p
    let s ← specTotalConfidence llm rest
    .ok (c + s)

/-- The three defined severity levels. -/
def validSeverity (s : String) : Prop := s = "low" ∨ s = "medium" ∨ s = "high"

/-! ## Concrete inputs used by counterexamples and witnesses -/

/-- A typed parameter `x: int`. -/
def pX : Parameter := { name := "x", type := some "int" }

/-- A code signature whose features match `docFoo` exactly but whose name
is unrelated. -/
def codeG : FunctionSignature :=
  { name := "g", parameters := [pX], return_type := some "int",
    docstring := some "hello", line_number := 2, file_path := "a.py" }

/-- A code signature named `foo`. -/
def codeFoo : FunctionSignature :=
  { name := "foo", parameters := [pX], return_type := some "int",
    docstring := some "hello", line_number := 1, file_path := "a.py" }

/-- A documentation signature named `foo`. -/
def docFoo : FunctionSignature :=
  { name := "foo", parameters := [pX], return_type := some "int",
    docstring := some "hello", line_number := 5, file_path := "a.md" }

/-- A code signature named `a` with high feature similarity to
`docLongName` but almost no name overlap. -/
def codeA : FunctionSignature :=
  { name := "a", parameters := [pX], return_type := some "int",
    docstring := some "hello", line_number := 1, file_path := "a.py" }

/-- A documentation signature named `aBcdefghij`. -/
def docLongName : FunctionSignature :=
  { name := "aBcdefghij", parameters := [pX], return_type := some "int",
    docstring := some "hello", line_number := 1, file_path := "b.md" }

/-- A bare code signature named `foo` (no parameters, types or text). -/
def plainFoo : FunctionSignature :=
  { name := "foo", parameters := [], line_number := 1, file_path := "a.py" }

/-- Its documentation twin. -/
def plainFooDoc : FunctionSignature :=
  { name := "foo", parameters := [], line_number := 1, file_path := "a.md" }

/-- A bare signature used for the C6 counterexample (no parameters, no
return type, no docstring). -/
def bareSig : FunctionSignature :=
  { name := "f", parameters := [], line_number := 1, file_path := "a.py" }

/-- Code signature `alpha`, identical on both sides of the C5 scenario. -/
def sigAlpha : FunctionSignature :=
  { name := "alpha", parameters := [pX], return_type := some "int",
    docstring := some "hello", line_number := 1, file_path := "a.py" }

/-- Code signature `beta`. -/
def sigBeta : FunctionSignature :=
  { name := "beta", parameters := [pX], return_type := some "int",
    docstring := some "hello", line_number := 2, file_path := "a.py" }

/-- Documentation signature `alpha`. -/
def docAlpha : FunctionSignature := { sigAlpha with file_path := "a.md" }

/-- Documentation signature `beta`. -/
def docBeta : FunctionSignature := { sigBeta with file_path := "a.md" }

/-- A documentation signature with no code counterpart. -/
def docZzz : FunctionSignature :=
  { name := "zzz", parameters := [], line_number := 9, file_path := "z.md" }

/-- A remote engine that always answers with the neutral result. -/
def llmNeutral :
    FunctionSignature → FunctionSignature → Except PyErr ComparisonResult :=
  fun _ _ => .ok { matches_ := false, confidence := 0, issues := [] }

/-- A remote engine whose retries are exhausted: `compare` raises the
rewrapped rate-limit `HTTPError`. -/
def llmRateLimited :
    FunctionSignature → FunctionSignature → Except PyErr ComparisonResult :=
  fun _ _ => .error (.httpError "rate limit")

/-! ## Counterexamples -/

/-- C1 (counterexample): with code signatures `g, foo` and the single doc
signature `foo`, the exact-name pass pairs `foo ↔ foo` even though the doc
signature was already consumed by `g`'s semantic match (score `0.5 ≥`
threshold), so the doc signature appears in **two** emitted pairs —
refuting the bijection-with-nulls claim. -/
theorem findBestMatches_reuses_doc_cex :
    ((findBestMatches [codeG, codeFoo] [docFoo] (1/2)).filter
      (fun t => t.2.1 = some docFoo)).length = 2 := by decide

/-- C2 (counterexample): on `a` vs `aBcdefghij` the hybrid comparator
takes the complete-mismatch branch (hybrid name similarity `0.1 < 0.3`)
with overall similarity `0.85`, returning `matches = false` with
confidence `85 ≥ 80` — so `matches = (confidence ≥ 80)` fails. -/
theorem hybrid_very_low_matches_cex :
    (hybridCompare llmNeutral codeA docLongName).toOption.map
        (fun r => (r.matches_, r.confidence)) = some (false, 85)
      ∧ ¬ ((false = true) ↔ (85 : ℤ) ≥ 80) := by
  refine ⟨by decide, by decide⟩

/-- C3 (counterexample): `_hybrid_comparison` has no `try`, so when the
engine's retries exhaust (a rate-limit `HTTPError` propagates out of
`compare`), `analyze` aborts with that error instead of producing a
report with a zero-confidence result. -/
theorem analyze_aborts_on_engine_failure_cex :
    analyzeRepository llmRateLimited [plainFoo] [plainFooDoc]
      = .error (.httpError "rate limit") := rfl

/-- C5 (counterexample): two verified pairs at confidence 100 and one
unmatched doc signature give `total_confidence = 200` over `3` pairs; the
code truncates (`int(200/3) = 66`) where the claim's `round` gives `67`. -/
theorem trust_score_truncates_cex :
    (analyzeRepository llmNeutral [sigAlpha, sigBeta]
        [docAlpha, docBeta, docZzz]).toOption.map (fun r => r.trust_score)
        = some 66
      ∧ specTotalConfidence llmNeutral
          (matchFunctions [sigAlpha, sigBeta] [docAlpha, docBeta, docZzz] true)
          = .ok 200
      ∧ (matchFunctions [sigAlpha, sigBeta] [docAlpha, docBeta, docZzz] true).length = 3
      ∧ pyRound ((200 : ℚ) / 3) = 67
      ∧ (66 : ℤ) ≠ 67 := by
  refine ⟨by decide, rfl, by decide, by decide, by decide⟩

/-- C6 (counterexample): on two signatures with no parameters, no return
types and no docstrings the code's feature similarity is `0.45` (the
parameter-count term is skipped and both-absent return types score `1.0`)
while the claim's formula gives `0.65`. -/
theorem featureSimilarity_formula_cex :
    featureSimilarity bareSig bareSig = 9/20
      ∧ specFeatureSimilarity bareSig bareSig = 13/20
      ∧ (9/20 : ℚ) ≠ 13/20 := by
  refine ⟨by decide, by decide, by decide⟩

/-- The C9 counterexample reply: a well-formed JSON object whose issue
carries a severity outside the three defined levels. -/
def replyCriticalSeverity : String :=
  "\x7b\"issues\": [\x7b\"severity\": \"critical\"\x7d]\x7d"

/-- C9 (counterexample): `_parse_response` copies the reply's severity
string verbatim, so an analysis issue can carry the severity
`"critical" ∉ {low, medium, high}`. -/
theorem parsed_issue_severity_cex :
    (parseResponse replyCriticalSeverity "f").toOption.map
        (fun r => r.issues.map (·.severity)) = some ["critical"]
      ∧ ¬ validSeverity "critical" := by
  refine ⟨rfl, by simp [validSeverity]⟩

/-- C10 (counterexample): in `doc_foo.md` with body `## bar␤some text`,
the heading `bar` passes the function-name heuristic, yet the extractor
emits only the filename-derived `foo` — the filename is not a fallback
but takes priority, and the last heading section is dropped. -/
theorem filename_overrides_heading_cex :
    (parseMarkdown "## bar\nsome text" "doc_foo.md").toOption.map
        (fun fs => fs.map (·.name)) = some ["foo"]
      ∧ looksLikeFunctionName "bar" = .ok true
      ∧ ¬ ("bar" ∈ ["foo"]) := by
  refine ⟨rfl, rfl, by decide⟩

/-! ## Claim theorems -/

/-- Six parsers that always raise, to witness that the dispatcher
swallows every parser failure. -/
def raisingParsers : LangParsers :=
  { java := fun _ _ => .error (.runtimeError "boom")
    markdown := fun _ _ => .error (.runtimeError "boom")
    json := fun _ _ => .error (.runtimeError "boom")
    python := fun _ _ => .error (.runtimeError "boom")
    javascript := fun _ _ => .error (.runtimeError "boom")
    typescript := fun _ _ => .error (.runtimeError "boom") }

/-- C4: for every choice of per-language parsers (even ones that always
raise) and every identifier and text, `parse_code` never raises;
identifiers without a supported suffix and empty or whitespace-only texts
yield `[]`. -/
theorem parseCode_total_and_defaults :
    ∀ (P : LangParsers) (filename code : String),
      (parseCode P filename code).isOk = true
      ∧ (isSupported filename = false → parseCode P filename code = .ok [])
      ∧ (pyStrip code = "" → parseCode P filename code = .ok []) := by
  intro P filename code
  refine ⟨?_, ?_, ?_⟩
  · simp only [parseCode]
    split_ifs <;> rfl
  · intro hsup
    by_cases hc : code = "" ∨ pyStrip code = ""
    · simp only [parseCode, if_pos hc]
    · simp only [isSupported, getSupportedExtensions, List.any_cons, List.any_nil,
        Bool.or_eq_false_iff] at hsup
      obtain ⟨h1, h2, h3, h4, h5, h6, h7, h8, h9, -⟩ := hsup
      simp only [parseCode, if_neg hc]
      simp only [h1, h2, h3, h4, h5, h6, h7, h8, h9, Bool.false_eq_true, or_self,
        if_false]
  · intro hstrip
    simp only [parseCode, if_pos (Or.inr hstrip)]

/-- C4 (witness): a `.txt` file with raising parsers extracts to `[]`
without an error. -/
theorem parseCode_total_and_defaults_witness :
    parseCode raisingParsers "notes.txt" "def f(): pass" = .ok [] :=
  (parseCode_total_and_defaults raisingParsers "notes.txt" "def f(): pass").2.1
    (by decide)

/-- C3 (amended): when the engine's `compare` raises and the branch
dispatch reaches an engine-invoking branch (similarity ≥ 0.2, name
similarity ≥ 0.3, and similarity < 0.85 or a parameter mismatch), the
Hybrid Comparator has no handler and the same error propagates out of its
`compare`. -/
theorem hybrid_propagates_engine_error :
    ∀ (llm : FunctionSignature → FunctionSignature →
        Except PyErr ComparisonResult) (c d : FunctionSignature) (e : PyErr),
      llm c d = .error e →
      hybridNameSimilarity c.name d.name ≥ nameThreshold →
      (computeSimilarity c d).score ≥ embeddingThresholdVeryLow →
      ((computeSimilarity c d).score < embeddingThresholdHigh
        ∨ hasParameterMismatch c d = true) →
      hybridCompare llm c d = .error e := by
  intro llm c d e hllm hname hscore hbranch
  unfold hybridCompare
  rw [if_neg (by push_neg; exact ⟨hscore, hname⟩)]
  rw [if_neg (by
    rintro ⟨hhigh, hmm⟩
    rcases hbranch with hlow | hmis
    · exact absurd hhigh (not_le.mpr hlow)
    · simp [hmis] at hmm)]
  split_ifs
  · unfold hybridLLMComparison
    rw [hllm]
    rfl
  · unfold llmFocusedComparison
    rw [hllm]
    rfl

/-- C3 (witness): the rate-limit failure on the bare `foo` pair (overall
similarity `0.725`, hybrid branch) propagates. -/
theorem hybrid_propagates_engine_error_witness :
    hybridCompare llmRateLimited plainFoo plainFooDoc
      = .error (.httpError "rate limit") :=
  hybrid_propagates_engine_error llmRateLimited plainFoo plainFooDoc
    (.httpError "rate limit") rfl (by decide) (by decide) (Or.inl (by decide))

/-- Eliminator for a successful `Except` bind: if `x >>= g` returns `.ok r`
then `x` succeeded and `g` mapped its value to `.ok r`. -/
theorem exceptBind_ok_elim {E A B : Type} {x : Except E A}
    {g : A → Except E B} {r : B} (h : (x >>= g) = .ok r) :
    ∃ a, x = .ok a ∧ g a = .ok r := by
  cases x with
  | error e => exact Except.noConfusion h
  | ok a => exact ⟨a, rfl, h⟩

/-- C2 (amended): in every branch of the Hybrid Comparator *except* the
complete-mismatch branch (`embedding_only_very_low`, where `matches` is
hard-coded to `False` even when the confidence reaches 80),
`matches = (confidence ≥ 80)` holds exactly; results parsed from service
replies take `matches` verbatim from the reply instead. -/
theorem hybrid_matches_iff_confidence :
    ∀ (llm : FunctionSignature → FunctionSignature →
        Except PyErr ComparisonResult) (c d : FunctionSignature)
      (r : HybridComparisonResult),
      hybridCompare llm c d = .ok r →
      r.method ≠ "embedding_only_very_low" →
      (r.matches_ = true ↔ r.confidence ≥ 80) := by
  intro llm c d r h hm
  simp only [hybridCompare] at h
  split_ifs at h with h1 h2 h3
  · rw [Except.ok.injEq] at h
    subst h
    exact absurd rfl hm
  · rw [Except.ok.injEq] at h
    subst h
    simp [embeddingOnlyResult]
  · simp only [hybridLLMComparison] at h
    obtain ⟨llmResult, -, h⟩ := exceptBind_ok_elim h
    injection h with h
    subst h
    simp
  · simp only [llmFocusedComparison] at h
    obtain ⟨llmResult, -, h⟩ := exceptBind_ok_elim h
    injection h with h
    subst h
    simp

/-- C2 (witness): an `embedding_only` result on identical signatures
verifies the equivalence at confidence 100. -/
theorem hybrid_matches_iff_confidence_witness :
    ((embeddingOnlyResult sigAlpha docAlpha
        (computeSimilarity sigAlpha docAlpha)).matches_ = true
      ↔ (embeddingOnlyResult sigAlpha docAlpha
          (computeSimilarity sigAlpha docAlpha)).confidence ≥ 80) :=
  hybrid_matches_iff_confidence llmNeutral sigAlpha docAlpha _ rfl (by decide)

/-- The parameter-count term: the implemented guard `params1 > 0 or
params2 > 0` is the negation of "both empty". -/
theorem ite_param_count_term (a : ℚ) (p1 p2 : ℕ) :
    (if p1 > 0 ∨ p2 > 0 then a * 0.3 else 0)
      = (if p1 = 0 ∧ p2 = 0 then (0 : ℚ) else 0.3 * a) := by
  by_cases h : p1 = 0 ∧ p2 = 0
  · rw [if_neg (by omega), if_pos h]
  · rw [if_pos (by omega), if_neg h, mul_comm]

/-- The return-type term: commuted weights. -/
theorem ite_ret_term (P Q : Prop) [Decidable P] [Decidable Q] (a : ℚ) :
    (if P then a * 0.2 else if Q then 1 * 0.2 else 0.5 * 0.2)
      = (if P then 0.2 * a else if Q then 0.2 * 1 else 0.2 * 0.5) := by
  split_ifs <;> ring

/-- The parameter-type term: when both parameter lists are non-empty the
inner `totalParams > 0` guard is always true. -/
theorem ite_type_term (f g : FunctionSignature) (r : ℚ) :
    (if f.parameters ≠ [] ∧ g.parameters ≠ [] then
        (if max f.parameters.length g.parameters.length > 0 then r else 0.5) * 0.3
      else 0.5 * 0.3)
      = (if f.parameters ≠ [] ∧ g.parameters ≠ [] then 0.3 * r else 0.3 * 0.5) := by
  by_cases h : f.parameters ≠ [] ∧ g.parameters ≠ []
  · have hmax : max f.parameters.length g.parameters.length > 0 := by
      have := List.length_pos.mpr h.1
      omega
    rw [if_pos h, if_pos h, if_pos hmax, mul_comm]
  · rw [if_neg h, if_neg h, mul_comm]

/-- The docstring term: when both word lists are non-empty the inner
`total > 0` guard is always true. -/
theorem ite_doc_term (A : Prop) [Decidable A] (w1 w2 : List String) :
    (if A then
        (if w1 ≠ [] ∧ w2 ≠ [] then
          (if (w1.toFinset ∪ w2.toFinset).card > 0 then
            ((w1.toFinset ∩ w2.toFinset).card : ℚ) / ((w1.toFinset ∪ w2.toFinset).card : ℚ)
          else 0.5) * 0.2
        else 0.5 * 0.2)
      else 0.5 * 0.2)
      = (if A then
          (if w1 ≠ [] ∧ w2 ≠ [] then
            0.2 * (((w1.toFinset ∩ w2.toFinset).card : ℚ)
              / ((w1.toFinset ∪ w2.toFinset).card : ℚ))
          else 0.2 * 0.5)
        else 0.2 * 0.5) := by
  by_cases hA : A
  · rw [if_pos hA, if_pos hA]
    by_cases hw : w1 ≠ [] ∧ w2 ≠ []
    · have hcard : (w1.toFinset ∪ w2.toFinset).card > 0 := by
        obtain ⟨x, hx⟩ := List.exists_mem_of_ne_nil w1 hw.1
        exact Finset.card_pos.mpr ⟨x, Finset.mem_union_left _ (List.mem_toFinset.mpr hx)⟩
      rw [if_pos hw, if_pos hw, if_pos hcard, mul_comm]
    · rw [if_neg hw, if_neg hw, mul_comm]
  · rw [if_neg hA, if_neg hA, mul_comm]

/-- C6 (amended): `_feature_similarity` computes the weighted blend with
two deviations from the spec sentence, both proven here: the
parameter-count term is omitted entirely (not "computed with both counts
zero") when both signatures have no parameters, and two absent return
types score full agreement 1.0 rather than the 0.5 baseline.  The other
two terms (30% positional type agreement, 20% docstring token overlap
with 0.5 default) are as the spec says. -/
theorem featureSimilarity_eq_amended :
    ∀ f g : FunctionSignature, featureSimilarity f g = amendedFeatureSpec f g := by
  intro f g
  simp only [featureSimilarity, amendedFeatureSpec]
  rw [ite_param_count_term, ite_ret_term, ite_type_term f g, ite_doc_term,
    Nat.cast_max]

/-- C7: `_name_similarity` is symmetric in its two arguments, and two
names equal up to ASCII case score exactly 1. -/
theorem nameSimilarity_symm_and_exact :
    ∀ a b : String, nameSimilarity a b = nameSimilarity b a
      ∧ (pyLower a = pyLower b → nameSimilarity a b = 1) := by
  intro a b
  constructor
  · simp only [nameSimilarity,
      show (pyLower b = pyLower a) = (pyLower a = pyLower b) from propext eq_comm,
      show (normalizeName b = normalizeName a) = (normalizeName a = normalizeName b)
        from propext eq_comm,
      show (pySplitWs (normalizeName b) ≠ [] ∧ pySplitWs (normalizeName a) ≠ [])
          = (pySplitWs (normalizeName a) ≠ [] ∧ pySplitWs (normalizeName b) ≠ [])
        from propext and_comm,
      Finset.inter_comm (pySplitWs (normalizeName b)).toFinset
        (pySplitWs (normalizeName a)).toFinset,
      Finset.union_comm (pySplitWs (normalizeName b)).toFinset
        (pySplitWs (normalizeName a)).toFinset,
      levenshteinSimilarity_symm (pyLower b) (pyLower a)]
  · intro h
    simp only [nameSimilarity]
    rw [if_pos h]
    norm_num

/-- C7 (witness): `Foo` and `foo` differ only in case: the signal is
symmetric there and equals 1. -/
theorem nameSimilarity_symm_and_exact_witness :
    nameSimilarity "Foo" "foo" = nameSimilarity "foo" "Foo"
      ∧ nameSimilarity "Foo" "foo" = 1 :=
  ⟨(nameSimilarity_symm_and_exact "Foo" "foo").1,
   (nameSimilarity_symm_and_exact "Foo" "foo").2 (by decide)⟩

/-- Every issue emitted by `_quick_issue_check` has severity `high` or
`medium`. -/
theorem quickIssueCheck_severity (c d : FunctionSignature) :
    ∀ i ∈ quickIssueCheck c d, validSeverity i.severity := by
  intro i hi
  simp only [quickIssueCheck, List.mem_append, List.mem_filterMap] at hi
  rcases hi with ⟨kv, -, hkv⟩ | ⟨kv, -, hkv⟩ <;>
    split_ifs at hkv <;>
    first
      | exact Option.noConfusion hkv
      | (injection hkv with hkv
         subst hkv
         simp [validSeverity])

/-- If the remote engine only ever reports valid severities, so does
every branch of `HybridComparator.compare`. -/
theorem hybridCompare_severity
    (llm : FunctionSignature → FunctionSignature → Except PyErr ComparisonResult)
    (hllm : ∀ c d res, llm c d = .ok res → ∀ i ∈ res.issues, validSeverity i.severity)
    (c d : FunctionSignature) (r : HybridComparisonResult)
    (h : hybridCompare llm c d = .ok r) :
    ∀ i ∈ r.issues, validSeverity i.severity := by
  simp only [hybridCompare] at h
  split_ifs at h with h1 h2 h3
  · injection h with h
    subst h
    intro i hi
    simp only [embeddingOnlyVeryLow, List.mem_singleton] at hi
    subst hi
    simp [validSeverity]
  · injection h with h
    subst h
    intro i hi
    simp only [embeddingOnlyResult] at hi
    exact quickIssueCheck_severity c d i hi
  · simp only [hybridLLMComparison] at h
    obtain ⟨res, hres, h⟩ := exceptBind_ok_elim h
    injection h with h
    subst h
    intro i hi
    exact hllm c d res hres i hi
  · simp only [llmFocusedComparison] at h
    obtain ⟨res, hres, h⟩ := exceptBind_ok_elim h
    injection h with h
    subst h
    intro i hi
    exact hllm c d res hres i hi

/-- The aggregator loop preserves severity validity of the accumulated
issue list. -/
theorem analyzeLoop_severity
    (llm : FunctionSignature → FunctionSignature → Except PyErr ComparisonResult)
    (hllm : ∀ c d res, llm c d = .ok res → ∀ i ∈ res.issues, validSeverity i.severity) :
    ∀ (pairs : List MatchedPair) (st st' : AnalysisState),
      analyzeLoop llm pairs st = .ok st' →
      (∀ i ∈ st.all_issues, validSeverity i.severity) →
      ∀ i ∈ st'.all_issues, validSeverity i.severity := by
  intro pairs
  induction pairs with
  | nil =>
    intro st st' h hst
    injection h with h
    subst h
    exact hst
  | cons p rest ih =>
    rcases p with ⟨_ | codeF, _ | docF⟩
    · intro st st' h hst
      simp only [analyzeLoop] at h
      exact Except.noConfusion h
    · intro st st' h hst
      simp only [analyzeLoop] at h
      refine ih _ _ h ?_
      intro i hi
      rcases List.mem_append.mp hi with hi | hi
      · exact hst i hi
      · rw [List.mem_singleton.mp hi]
        simp [docOnlyIssue, validSeverity]
    · intro st st' h hst
      simp only [analyzeLoop] at h
      refine ih _ _ h ?_
      intro i hi
      rcases List.mem_append.mp hi with hi | hi
      · exact hst i hi
      · rw [List.mem_singleton.mp hi]
        simp [codeOnlyIssue, validSeverity]
    · intro st st' h hst
      simp only [analyzeLoop] at h
      obtain ⟨result, hres, h⟩ := exceptBind_ok_elim h
      refine ih _ _ h ?_
      intro i hi
      by_cases hc : (toComparisonResult result).confidence ≥ 80
      · rw [if_pos hc] at hi
        exact hst i hi
      · rw [if_neg hc] at hi
        rcases List.mem_append.mp hi with hi | hi
        · exact hst i hi
        · exact hybridCompare_severity llm hllm codeF docF result hres i hi

/-- C9 (amended): severities originating in the aggregator
(`medium`/`low` for one-sided pairs) and in the Hybrid Comparator's own
branches (`high`/`medium`) are always among the three levels, so the
invariant holds for the whole report *provided* the issues parsed out of
the service replies carry valid severities — the parser itself copies the
reply's string verbatim and does not enforce it. -/
theorem analysis_severities_valid :
    ∀ (llm : FunctionSignature → FunctionSignature → Except PyErr ComparisonResult)
      (codeFs docFs : List FunctionSignature) (report : AnalysisReport),
      (∀ c d res, llm c d = .ok res → ∀ i ∈ res.issues, validSeverity i.severity) →
      analyzeRepository llm codeFs docFs = .ok report →
      ∀ i ∈ report.issues, validSeverity i.severity := by
  intro llm codeFs docFs report hllm h
  simp only [analyzeRepository] at h
  obtain ⟨st, hst, h⟩ := exceptBind_ok_elim h
  injection h with h
  subst h
  intro i hi
  refine analyzeLoop_severity llm hllm _ _ _ hst ?_ i hi
  intro j hj
  exact absurd hj (List.not_mem_nil j)

/-- C9 (witness): with a doc-only function and a neutral engine the
single emitted issue is the `medium` one of the aggregator. -/
theorem analysis_severities_valid_witness :
    validSeverity (docOnlyIssue docZzz).severity :=
  analysis_severities_valid llmNeutral [] [docZzz] _
    (by
      intro c d res h i hi
      injection h with h
      subst h
      exact absurd hi (List.not_mem_nil i))
    rfl (docOnlyIssue docZzz) (List.Mem.head _)

/-- The aggregator loop adds exactly the independently recomputed
confidence total to the running `total_confidence`. -/
theorem analyzeLoop_conf
    (llm : FunctionSignature → FunctionSignature → Except PyErr ComparisonResult) :
    ∀ (pairs : List MatchedPair) (st st' : AnalysisState) (tc : ℤ),
      analyzeLoop llm pairs st = .ok st' →
      specTotalConfidence llm pairs = .ok tc →
      st'.total_confidence = st.total_confidence + tc := by
  intro pairs
  induction pairs with
  | nil =>
    intro st st' tc h hs
    injection h with h
    injection hs with hs
    subst h
    subst hs
    omega
  | cons p rest ih =>
    rcases p with ⟨_ | codeF, _ | docF⟩
    · intro st st' tc h hs
      simp only [analyzeLoop] at h
      exact Except.noConfusion h
    · intro st st' tc h hs
      simp only [analyzeLoop] at h
      simp only [specTotalConfidence] at hs
      obtain ⟨c0, hc0, hs⟩ := exceptBind_ok_elim hs
      injection hc0 with hc0
      obtain ⟨s, hrest, hs⟩ := exceptBind_ok_elim hs
      injection hs with hs
      have := ih _ _ _ h hrest
      simp only [] at this
      omega
    · intro st st' tc h hs
      simp only [analyzeLoop] at h
      simp only [specTotalConfidence] at hs
      obtain ⟨c0, hc0, hs⟩ := exceptBind_ok_elim hs
      injection hc0 with hc0
      obtain ⟨s, hrest, hs⟩ := exceptBind_ok_elim hs
      injection hs with hs
      have := ih _ _ _ h hrest
      simp only [] at this
      omega
    · intro st st' tc h hs
      simp only [analyzeLoop] at h
      obtain ⟨result, hres, h⟩ := exceptBind_ok_elim h
      simp only [specTotalConfidence, pairConfidence, hres, Except.map] at hs
      obtain ⟨c0, hc0, hs⟩ := exceptBind_ok_elim hs
      injection hc0 with hc0
      obtain ⟨s, hrest, hs⟩ := exceptBind_ok_elim hs
      injection hs with hs
      have hih := ih _ _ _ h hrest
      have htot :
          (if (toComparisonResult result).confidence ≥ 80 then
            { all_issues := st.all_issues
              verified := st.verified + 1
              total_confidence := st.total_confidence + (toComparisonResult result).confidence
              methods_used := st.methods_used ++ [result.method] }
          else
            { all_issues := st.all_issues ++ (toComparisonResult result).issues
              verified := st.verified
              total_confidence := st.total_confidence + (toComparisonResult result).confidence
              methods_used := st.methods_used ++ [result.method] } :
            AnalysisState).total_confidence
            = st.total_confidence + (toComparisonResult result).confidence := by
        by_cases hc : (toComparisonResult result).confidence ≥ 80
        · rw [if_pos hc]
        · rw [if_neg hc]
      rw [htot] at hih
      have hcr : (toComparisonResult result).confidence = c0 := hc0
      omega

/-- C5 (amended): with at least one pair, `trust_score` is the *integer
truncation* `int(total_confidence / total)` of the mean confidence, not
its rounding; with both inputs empty the report is exactly
trust 100 / 0 functions / 0 verified / no issues. -/
theorem analyzeRepository_trust_score :
    ∀ (llm : FunctionSignature → FunctionSignature → Except PyErr ComparisonResult)
      (codeFs docFs : List FunctionSignature) (report : AnalysisReport) (tc : ℤ),
      analyzeRepository llm codeFs docFs = .ok report →
      specTotalConfidence llm (matchFunctions codeFs docFs true) = .ok tc →
      (report.trust_score =
          if (matchFunctions codeFs docFs true).length > 0 then
            pyInt ((tc : ℚ) / ((matchFunctions codeFs docFs true).length : ℚ))
          else 100)
        ∧ analyzeRepository llm [] []
            = .ok { trust_score := 100, total_functions := 0, verified := 0,
                    average_confidence := 100, issues := [], method_stats := [] } := by
  intro llm codeFs docFs report tc h hs
  constructor
  · simp only [analyzeRepository] at h
    obtain ⟨st, hst, h⟩ := exceptBind_ok_elim h
    injection h with h
    subst h
    have hconf := analyzeLoop_conf llm _ _ _ _ hst hs
    simp only [] at hconf
    show (if (matchFunctions codeFs docFs true).length > 0 then
        pyInt ((st.total_confidence : ℚ) / ((matchFunctions codeFs docFs true).length : ℚ))
      else 100) = _
    rw [hconf]
    norm_num
  · rfl

/-- C5 (witness): on empty inputs the amended statement holds with the
zero confidence total. -/
theorem analyzeRepository_trust_score_witness :
    ((100 : ℤ) =
        if (matchFunctions ([] : List FunctionSignature) [] true).length > 0 then
          pyInt ((0 : ℚ) / ((matchFunctions ([] : List FunctionSignature) [] true).length : ℚ))
        else 100)
      ∧ analyzeRepository llmNeutral [] []
          = .ok { trust_score := 100, total_functions := 0, verified := 0,
                  average_confidence := 100, issues := [], method_stats := [] } :=
  analyzeRepository_trust_score llmNeutral [] [] _ 0 rfl rfl

/-- Indices in `enumFrom n` are at least `n`. -/
theorem enumFrom_fst_le {α : Type} :
    ∀ (l : List α) (n : ℕ) (p : ℕ × α), p ∈ l.enumFrom n → n ≤ p.1 := by
  intro l
  induction l with
  | nil =>
    intro n p h
    cases h
  | cons x l ih =>
    intro n p h
    rcases List.mem_cons.mp h with rfl | h
    · exact Nat.le_refl n
    · exact Nat.le_of_succ_le (ih (n + 1) p h)

/-- An index determines its element in `enumFrom`. -/
theorem enumFrom_snd_unique {α : Type} :
    ∀ (l : List α) (n i : ℕ) (a b : α),
      (i, a) ∈ l.enumFrom n → (i, b) ∈ l.enumFrom n → a = b := by
  intro l
  induction l with
  | nil =>
    intro n i a b h
    cases h
  | cons x l ih =>
    intro n i a b ha hb
    rcases List.mem_cons.mp ha with ha | ha <;>
      rcases List.mem_cons.mp hb with hb | hb
    · injection ha with ha1 ha2
      injection hb with hb1 hb2
      rw [ha2, hb2]
    · injection ha with ha1 ha2
      have := enumFrom_fst_le l (n + 1) (i, b) hb
      omega
    · injection hb with hb1 hb2
      have := enumFrom_fst_le l (n + 1) (i, a) ha
      omega
    · exact ih (n + 1) i a b ha hb

/-- An index determines its element in `enum`. -/
theorem enum_snd_unique {α : Type} (l : List α) (i : ℕ) (a b : α)
    (ha : (i, a) ∈ l.enum) (hb : (i, b) ∈ l.enum) : a = b :=
  enumFrom_snd_unique l 0 i a b ha hb

/-- Every element of a list appears in its `enum` at some index. -/
theorem mem_enum_of_mem {α : Type} :
    ∀ (l : List α) (a : α), a ∈ l → ∃ i, (i, a) ∈ l.enumFrom 0 := by
  have key : ∀ (l : List α) (n : ℕ) (a : α), a ∈ l → ∃ i, (i, a) ∈ l.enumFrom n := by
    intro l
    induction l with
    | nil =>
      intro n a h
      cases h
    | cons x l ih =>
      intro n a h
      rcases List.mem_cons.mp h with rfl | h
      · exact ⟨n, List.mem_cons_self _ _⟩
      · obtain ⟨i, hi⟩ := ih (n + 1) a h
        exact ⟨i, List.mem_cons_of_mem _ hi⟩
  intro l a h
  exact key l 0 a h

/-- A fold preserves a predicate when every step does. -/
theorem foldl_preserve {α β : Type} (g : β → α → β) (P : β → Prop) (Q : α → Prop)
    (hstep : ∀ b a, Q a → P b → P (g b a)) :
    ∀ (l : List α) (b : β), (∀ a ∈ l, Q a) → P b → P (l.foldl g b) := by
  intro l
  induction l with
  | nil =>
    intro b _ hb
    exact hb
  | cons a l ih =>
    intro b hl hb
    rw [List.foldl_cons]
    exact ih _ (fun x hx => hl x (List.mem_cons_of_mem _ hx))
      (hstep b a (hl a (List.mem_cons_self _ _)) hb)

/-- When the inner semantic search returns a document and an index, they
are a genuine indexed element of the document list. -/
theorem bestSemanticMatch_mem (codeF : FunctionSignature)
    (docs : List FunctionSignature) (used : List ℕ)
    (f : FunctionSignature) (s : SimilarityScore) (i : ℕ)
    (h : bestSemanticMatch codeF docs used = (some f, s, some i)) :
    (i, f) ∈ docs.enum := by
  have hP : ((bestSemanticMatch codeF docs used).1 = none
      ∨ ∃ q ∈ docs.enum, (bestSemanticMatch codeF docs used).1 = some q.2
        ∧ (bestSemanticMatch codeF docs used).2.2 = some q.1) :=
    foldl_preserve
      (fun (acc : Option FunctionSignature × SimilarityScore × Option ℕ)
          (p : ℕ × FunctionSignature) =>
        if used.contains p.1 then acc
        else
          let sim := computeSimilarity codeF p.2
          if sim.score > acc.2.1.score then (some p.2, sim, some p.1) else acc)
      (fun acc => acc.1 = none
        ∨ ∃ q ∈ docs.enum, acc.1 = some q.2 ∧ acc.2.2 = some q.1)
      (fun p => p ∈ docs.enum)
      (by
        intro b a hQ hP
        by_cases hu : used.contains a.1
        · simpa only [if_pos hu] using hP
        · by_cases hs : (computeSimilarity codeF a.2).score > b.2.1.score
          · right
            refine ⟨a, hQ, ?_⟩
            simp only [if_neg hu, if_pos hs]
            exact ⟨trivial, trivial⟩
          · simpa only [if_neg hu, if_neg hs] using hP)
      docs.enum _ (fun a ha => ha) (Or.inl rfl)
  rw [h] at hP
  rcases hP with h1 | ⟨q, hq, hq1, hq2⟩
  · exact Option.noConfusion h1
  · injection hq1 with hq1
    injection hq2 with hq2
    subst hq1
    subst hq2
    simpa using hq

/-- The exact-name lookup returns a genuine indexed element of the
document list. -/
theorem docMapLookup_mem {docs : List FunctionSignature} {key : String}
    {i : ℕ} {f : FunctionSignature}
    (h : docMapLookup docs key = some (i, f)) : (i, f) ∈ docs.enum := by
  simp only [docMapLookup] at h
  exact List.mem_reverse.mp (List.mem_of_find?_eq_some h)

/-- Invariant of the main matching loop: the emitted first components are
exactly the code list, and every index the loop consumed was either
already consumed or belongs to a document emitted in some pair. -/
theorem fbmLoop_spec (docs : List FunctionSignature) (θ : ℚ) :
    ∀ (code : List FunctionSignature) (used : List ℕ),
      ((fbmLoop docs θ code used).1.filterMap (fun tr => tr.1) = code)
      ∧ (∀ j ∈ (fbmLoop docs θ code used).2,
          j ∈ used ∨ ∃ f, (j, f) ∈ docs.enum
            ∧ ∃ tr ∈ (fbmLoop docs θ code used).1, tr.2.1 = some f) := by
  intro code
  induction code with
  | nil =>
    intro used
    exact ⟨rfl, fun j hj => Or.inl hj⟩
  | cons codeF rest ih =>
    intro used
    cases hdm : docMapLookup docs (pyLower codeF.name) with
    | some p =>
      obtain ⟨docIdx, docF⟩ := p
      rcases hrec : fbmLoop docs θ rest (docIdx :: used) with ⟨tl, used2⟩
      have ihr := ih (docIdx :: used)
      rw [hrec] at ihr
      have hstep : fbmLoop docs θ (codeF :: rest) used
          = ((some codeF, some docF,
              { score := 1.0, method := "exact_name", confidence := 1.0 }) :: tl,
             used2) := by
        simp only [fbmLoop, hdm, hrec]
      rw [hstep]
      constructor
      · simpa using ihr.1
      · intro j hj
        rcases ihr.2 j hj with hj2 | ⟨f, hf, tr, htr, htr2⟩
        · rcases List.mem_cons.mp hj2 with rfl | hju
          · right
            exact ⟨docF, docMapLookup_mem hdm,
              ⟨_, List.mem_cons_self _ _, rfl⟩⟩
          · exact Or.inl hju
        · right
          exact ⟨f, hf, tr, List.mem_cons_of_mem _ htr, htr2⟩
    | none =>
      rcases hbest : bestSemanticMatch codeF docs used with ⟨b1, b2, b3⟩
      cases b1 with
      | some docF =>
        by_cases hθ : b2.score ≥ θ
        · cases b3 with
          | some bi =>
            rcases hrec : fbmLoop docs θ rest (bi :: used) with ⟨tl, used2⟩
            have ihr := ih (bi :: used)
            rw [hrec] at ihr
            have hstep : fbmLoop docs θ (codeF :: rest) used
                = ((some codeF, some docF, b2) :: tl, used2) := by
              simp only [fbmLoop, hdm, hbest, if_pos hθ, hrec]
            rw [hstep]
            constructor
            · simpa using ihr.1
            · intro j hj
              rcases ihr.2 j hj with hj2 | ⟨f, hf, tr, htr, htr2⟩
              · rcases List.mem_cons.mp hj2 with rfl | hju
                · right
                  exact ⟨docF, bestSemanticMatch_mem codeF docs used docF b2 j hbest,
                    ⟨_, List.mem_cons_self _ _, rfl⟩⟩
                · exact Or.inl hju
              · right
                exact ⟨f, hf, tr, List.mem_cons_of_mem _ htr, htr2⟩
          | none =>
            rcases hrec : fbmLoop docs θ rest used with ⟨tl, used2⟩
            have ihr := ih used
            rw [hrec] at ihr
            have hstep : fbmLoop docs θ (codeF :: rest) used
                = ((some codeF, some docF, b2) :: tl, used2) := by
              simp only [fbmLoop, hdm, hbest, if_pos hθ, hrec]
            rw [hstep]
            constructor
            · simpa using ihr.1
            · intro j hj
              rcases ihr.2 j hj with hj2 | ⟨f, hf, tr, htr, htr2⟩
              · exact Or.inl hj2
              · right
                exact ⟨f, hf, tr, List.mem_cons_of_mem _ htr, htr2⟩
        · rcases hrec : fbmLoop docs θ rest used with ⟨tl, used2⟩
          have ihr := ih used
          rw [hrec] at ihr
          have hstep : fbmLoop docs θ (codeF :: rest) used
              = ((some codeF, none,
                  { score := 0.0, method := "none", confidence := 0.0 }) :: tl,
                 used2) := by
            simp only [fbmLoop, hdm, hbest, if_neg hθ, hrec]
          rw [hstep]
          constructor
          · simpa using ihr.1
          · intro j hj
            rcases ihr.2 j hj with hj2 | ⟨f, hf, tr, htr, htr2⟩
            · exact Or.inl hj2
            · right
              exact ⟨f, hf, tr, List.mem_cons_of_mem _ htr, htr2⟩
      | none =>
        rcases hrec : fbmLoop docs θ rest used with ⟨tl, used2⟩
        have ihr := ih used
        rw [hrec] at ihr
        have hstep : fbmLoop docs θ (codeF :: rest) used
            = ((some codeF, none,
                { score := 0.0, method := "none", confidence := 0.0 }) :: tl,
               used2) := by
          simp only [fbmLoop, hdm, hbest, hrec]
        rw [hstep]
        constructor
        · simpa using ihr.1
        · intro j hj
          rcases ihr.2 j hj with hj2 | ⟨f, hf, tr, htr, htr2⟩
          · exact Or.inl hj2
          · right
            exact ⟨f, hf, tr, List.mem_cons_of_mem _ htr, htr2⟩

/-- C1 (amended): `find_best_matches` emits the code signatures exactly
once each and in order as the first components, emits at least as many
pairs as there are code signatures, and every doc signature appears in at
least one pair — but a doc signature can appear in *more than one* pair
(the exact-name pass ignores `used_doc_indices`), so the claimed
bijection-with-nulls fails on the doc side. -/
theorem findBestMatches_coverage :
    ∀ (codeFs docFs : List FunctionSignature) (θ : ℚ),
      ((findBestMatches codeFs docFs θ).filterMap (fun tr => tr.1) = codeFs)
      ∧ (findBestMatches codeFs docFs θ).length ≥ codeFs.length
      ∧ ∀ d ∈ docFs, ∃ tr ∈ findBestMatches codeFs docFs θ, tr.2.1 = some d := by
  intro codeFs docFs θ
  have hspec := fbmLoop_spec docFs θ codeFs []
  rcases hr : fbmLoop docFs θ codeFs [] with ⟨emitted, used⟩
  rw [hr] at hspec
  obtain ⟨h1, h2⟩ := hspec
  simp only [] at h1 h2
  have hout : findBestMatches codeFs docFs θ
      = emitted ++ (docFs.enum.filter (fun p => ¬ used.contains p.1)).map
          (fun p => ((none : Option FunctionSignature), some p.2,
            ({ score := 0.0, method := "unmatched", confidence := 0.0 }
              : SimilarityScore))) := by
    simp only [findBestMatches, hr]
  rw [hout]
  refine ⟨?_, ?_, ?_⟩
  · rw [List.filterMap_append, h1]
    have htail : ((docFs.enum.filter (fun p => ¬ used.contains p.1)).map
        (fun p => ((none : Option FunctionSignature), some p.2,
          ({ score := 0.0, method := "unmatched", confidence := 0.0 }
            : SimilarityScore)))).filterMap (fun tr => tr.1) = [] := by
      simp
    rw [htail, List.append_nil]
  · have hlen : codeFs.length ≤ emitted.length := by
      calc codeFs.length = (emitted.filterMap (fun tr => tr.1)).length := by rw [h1]
        _ ≤ emitted.length := List.length_filterMap_le _ _
    rw [List.length_append]
    omega
  · intro d hd
    obtain ⟨j, hj⟩ := mem_enum_of_mem docFs d hd
    by_cases hju : used.contains j
    · rcases h2 j (by simpa using hju) with hj0 | ⟨f, hf, tr, htr, htr2⟩
      · exact absurd hj0 (List.not_mem_nil j)
      · have hfd : f = d := enum_snd_unique docFs j f d hf hj
        exact ⟨tr, List.mem_append_left _ htr, by rw [htr2, hfd]⟩
    · refine ⟨((none : Option FunctionSignature), some d,
        ({ score := 0.0, method := "unmatched", confidence := 0.0 }
          : SimilarityScore)), List.mem_append_right _ ?_, rfl⟩
      refine List.mem_map.mpr ⟨(j, d), ?_, rfl⟩
      refine List.mem_filter.mpr ⟨hj, ?_⟩
      simpa using hju

/-- C1 (witness): on the two-code-one-doc instance the emitted firsts are
the code list, three pairs are emitted for two code signatures, and the
doc signature appears in a pair. -/
theorem findBestMatches_coverage_witness :
    ((findBestMatches [codeG, codeFoo] [docFoo] 0.5).filterMap (fun tr => tr.1)
        = [codeG, codeFoo])
      ∧ (findBestMatches [codeG, codeFoo] [docFoo] 0.5).length ≥ 2
      ∧ ∃ tr ∈ findBestMatches [codeG, codeFoo] [docFoo] 0.5,
          tr.2.1 = some docFoo :=
  ⟨(findBestMatches_coverage [codeG, codeFoo] [docFoo] 0.5).1,
   (findBestMatches_coverage [codeG, codeFoo] [docFoo] 0.5).2.1,
   (findBestMatches_coverage [codeG, codeFoo] [docFoo] 0.5).2.2 docFoo
     (List.Mem.head _)⟩

/-- Dedup keeps, for every unseen input name, a function with that
lowercase name. -/
theorem dedupByName_covers :
    ∀ (l : List FunctionSignature) (seen : List String) (f : FunctionSignature),
      f ∈ l → ¬ seen.contains (pyLower f.name) = true →
      ∃ g ∈ dedupByName l seen, pyLower g.name = pyLower f.name := by
  intro l
  induction l with
  | nil =>
    intro seen f h _
    cases h
  | cons x l ih =>
    intro seen f hf hseen
    by_cases hx : seen.contains (pyLower x.name) = true
    · simp only [dedupByName, if_pos hx]
      rcases List.mem_cons.mp hf with rfl | hf2
      · exact absurd hx hseen
      · exact ih seen f hf2 hseen
    · simp only [dedupByName, if_neg hx]
      rcases List.mem_cons.mp hf with rfl | hf2
      · exact ⟨f, List.mem_cons_self _ _, rfl⟩
      · by_cases hfx : pyLower f.name = pyLower x.name
        · exact ⟨x, List.mem_cons_self _ _, hfx.symm⟩
        · obtain ⟨g, hg, hgn⟩ := ih (pyLower x.name :: seen) f hf2 (by
            simp only [List.contains_cons, Bool.or_eq_true, beq_iff_eq]
            push_neg
            exact ⟨hfx, hseen⟩)
          exact ⟨g, List.mem_cons_of_mem _ hg, hgn⟩

/-- C10 (amended): a usable filename-derived name is not a fallback: it
*always* contributes the whole-file signature, whether or not any heading
qualifies (the heading-finalisation `elif` is then skipped, see the
counterexample).  After dedup the output still contains a function with
that name. -/
theorem filename_name_priority :
    ∀ (code filename n : String) (fs : List FunctionSignature),
      filenameFuncNameOf filename = some n →
      looksLikeFunctionName n = .ok true →
      parseMarkdown code filename = .ok fs →
      ∃ f ∈ fs, pyLower f.name
        = pyLower (parseFuncFromContent n (pySplitNl code) filename).name := by
  intro code filename n fs hn hq hparse
  simp only [parseMarkdown, hn] at hparse
  obtain ⟨st, hst, hparse⟩ := exceptBind_ok_elim hparse
  obtain ⟨q, hq2, hparse⟩ := exceptBind_ok_elim hparse
  rw [hq] at hq2
  injection hq2 with hq2
  subst hq2
  obtain ⟨functions1, hf1, hparse⟩ := exceptBind_ok_elim hparse
  injection hf1 with hf1
  subst hf1
  rw [if_neg (by simp)] at hparse
  obtain ⟨functions2, hf2, hparse⟩ := exceptBind_ok_elim hparse
  injection hf2 with hf2
  subst hf2
  injection hparse with hparse
  subst hparse
  exact dedupByName_covers _ [] (parseFuncFromContent n (pySplitNl code) filename)
    (List.mem_append_right _ (List.Mem.head _)) (by simp)

/-- C10 (witness): `doc_baz.md` yields the filename-derived name `baz`
and the parsed output contains it. -/
theorem filename_name_priority_witness :
    ∃ f ∈ (parseMarkdown "## bar\nsome text" "doc_baz.md").toOption.getD [],
      pyLower f.name
        = pyLower (parseFuncFromContent "baz" (pySplitNl "## bar\nsome text")
            "doc_baz.md").name :=
  filename_name_priority "## bar\nsome text" "doc_baz.md" "baz" _ rfl rfl rfl

end Veritas
